import Mathlib

/-!
Shallow embedding of the ExoSpace repository (exospace-server and
exospace-client-terminal, both `src/main.rs`) together with proofs of the
specified properties of the world generator, the start-position resolution,
the movement logic and the input-reconciliation state machine.

Machine integers are modelled as `Nat`/`Int` with explicit wrap-around where
the Rust source uses wrapping arithmetic (`wrapping_mul`, `wrapping_add`,
`as u32`, `as i32`, `as usize`).  Rust operations that can panic (usize
subtraction underflow evaluated in a loop bound, `%` by zero) are modelled
with `Option`: `none` means the generation run aborts and produces no grid.
-/

namespace ExoSpace

/-- Tile types in the map (identical in both crates). -/
inductive Tile where
  | Wall
  | Floor
  | Asteroid
  | Nebula
deriving DecidableEq, Repr

/-- `Tile::is_passable`: only `Floor` and `Nebula` are passable. -/
def Tile.is_passable : Tile → Bool
  | .Floor => true
  | .Nebula => true
  | _ => false

/-- The tile grids of both crates: `Vec<Vec<Tile>>`, row major. -/
abbrev Grid := List (List Tile)

/-- Read `tiles[y][x]` as an `Option` (`none` when out of range). -/
def tileAt (g : Grid) (y x : Nat) : Option Tile :=
  (g[y]?).bind (fun row => row[x]?)

/-- Write `tiles[y][x] = t`.  All writes performed by the generators are
in range, so modelling the write as a no-op out of range is faithful. -/
def setTile (g : Grid) (y x : Nat) (t : Tile) : Grid :=
  match g[y]? with
  | some row => g.set y (row.set x t)
  | none => g

/-- 2^64, the modulus of `u64` arithmetic. -/
def U64 : Nat := 18446744073709551616

/-- One step of the linear congruential generator shared by
`MapGenerator::rand` (server) and the local `rand` closure (client):
`state = state.wrapping_mul(1103515245).wrapping_add(12345);
 (state >> 16) & 0x7fff`.  Returns (new state, drawn value). -/
def rngNext (s : Nat) : Nat × Nat :=
  let s' := (s * 1103515245 + 12345) % U64
  (s', (s' / 65536) % 32768)

/-- `n as i32` for a `usize` value `n` (two's complement truncation). -/
def i32Of (n : Nat) : Int :=
  let m := n % 4294967296
  if m < 2147483648 then (m : Int) else (m : Int) - 4294967296

/-- `v as usize` for an `i32` value `v` (two's complement, 64-bit usize). -/
def usizeOf (v : Int) : Nat :=
  (v % (18446744073709551616 : Int)).toNat

/-- The inclusive integer range `lo..=lo+(n-1)`, as iterated by Rust
`for dx in -(r as i32)..=(r as i32)` loops. -/
def intRange (lo : Int) (n : Nat) : List Int :=
  (List.range n).map (fun (i : Nat) => lo + (i : Int))

/-! ### Client: `Map`, bounds-checked access, passability -/

/-- The client `Map` struct (`exospace-client-terminal/src/main.rs`). -/
structure Map where
  tiles : Grid
  width : Nat
  height : Nat
  start_position : Option (Int × Int)

/-- `Map::get`: explicit `None` for negative coordinates, then
`tiles.get(y).and_then(|row| row.get(x)).copied()`. -/
def Map.get (m : Map) (x y : Int) : Option Tile :=
  if x < 0 ∨ y < 0 then none
  else (m.tiles[y.toNat]?).bind (fun row => row[x.toNat]?)

/-- `Map::is_passable`: `get(x,y).map(|t| t.is_passable()).unwrap_or(false)`. -/
def Map.is_passable (m : Map) (x y : Int) : Bool :=
  ((m.get x y).map Tile.is_passable).getD false

/-! ### Client: directions and movement -/

/-- 8-directional orientation of the client. -/
inductive Direction where
  | Up | UpRight | Right | DownRight | Down | DownLeft | Left | UpLeft
deriving DecidableEq, Repr

/-- `Direction::from_delta`. -/
def Direction.from_delta (dx dy : Int) : Option Direction :=
  match dx, dy with
  | 0, -1 => some .Up
  | 1, -1 => some .UpRight
  | 1, 0 => some .Right
  | 1, 1 => some .DownRight
  | 0, 1 => some .Down
  | -1, 1 => some .DownLeft
  | -1, 0 => some .Left
  | -1, -1 => some .UpLeft
  | _, _ => none

/-- The client `Player` struct: position and facing. -/
structure Player where
  x : Int
  y : Int
  direction : Direction

/-- `Player::try_move`: returns the updated player and the `bool` result.
Attempts the full delta first; when blocked and the delta is diagonal,
attempts the horizontal-only and then the vertical-only sub-move.  The
facing is updated from the attempted delta before any passability check. -/
def Player.try_move (p : Player) (dx dy : Int) (m : Map) : Player × Bool :=
  if dx = 0 ∧ dy = 0 then (p, false)
  else
    let p := match Direction.from_delta dx dy with
      | some dir => { p with direction := dir }
      | none => p
    let new_x := p.x + dx
    let new_y := p.y + dy
    if m.is_passable new_x new_y then ({ p with x := new_x, y := new_y }, true)
    else if dx ≠ 0 ∧ dy ≠ 0 then
      if m.is_passable (p.x + dx) p.y then ({ p with x := p.x + dx }, true)
      else if m.is_passable p.x (p.y + dy) then ({ p with y := p.y + dy }, true)
      else (p, false)
    else (p, false)

/-- Apply a sequence of `try_move` deltas, as the main loop does one step
per frame (the map is immutable between steps). -/
def Player.runMoves (p : Player) (m : Map) (moves : List (Int × Int)) : Player :=
  moves.foldl (fun p d => (p.try_move d.1 d.2 m).1) p

/-! ### Client: input reconciliation -/

/-- Per-direction key state; `Instant` is modelled as a `Nat` timestamp. -/
structure KeyState where
  held : Bool
  last_seen : Nat
deriving DecidableEq, Repr

/-- The four logical direction keys handled by `InputState::update_key`;
`other` stands for every key matched by the `_ => return` arm. -/
inductive Key where
  | up | down | left | right | other
deriving DecidableEq, Repr

/-- The `NcInputType` event kinds distinguished by `update_key`. -/
inductive InputType where
  | press | repeat | unknown | release
deriving DecidableEq, Repr

/-- The client `InputState`; `key_timeout` is a duration in the same time
unit as the timestamps. -/
structure InputState where
  up : KeyState
  down : KeyState
  left : KeyState
  right : KeyState
  has_release_support : Bool
  key_timeout : Nat
deriving DecidableEq, Repr

/-- `InputState::update_key` at time `now` (`Instant::now()` of the event).
Press, repeat and unknown events mark the key held and stamp `last_seen`;
a release clears the key and permanently records release support.
Unmatched keys return without touching the state. -/
def InputState.update_key (s : InputState) (k : Key) (e : InputType) (now : Nat) : InputState :=
  let upd : KeyState → (KeyState → InputState) → InputState := fun ks put =>
    match e with
    | .press | .repeat | .unknown => put { held := true, last_seen := now }
    | .release => { (put { ks with held := false }) with has_release_support := true }
  match k with
  | .up => upd s.up (fun ks => { s with up := ks })
  | .down => upd s.down (fun ks => { s with down := ks })
  | .left => upd s.left (fun ks => { s with left := ks })
  | .right => upd s.right (fun ks => { s with right := ks })
  | .other => s

/-- One key of `InputState::timeout_stale_keys`: clear `held` when the key
was last refreshed more than `key_timeout` ago (`Instant::duration_since`
saturates at zero, which truncated `Nat` subtraction models exactly). -/
def KeyState.timeoutOne (ks : KeyState) (timeout now : Nat) : KeyState :=
  if ks.held ∧ now - ks.last_seen > timeout then { ks with held := false } else ks

/-- `InputState::timeout_stale_keys` at time `now`: a no-op once any release
event has ever been observed, otherwise force-release stale keys. -/
def InputState.timeout_stale_keys (s : InputState) (now : Nat) : InputState :=
  if s.has_release_support then s
  else
    { s with
      up := s.up.timeoutOne s.key_timeout now
      down := s.down.timeoutOne s.key_timeout now
      left := s.left.timeoutOne s.key_timeout now
      right := s.right.timeoutOne s.key_timeout now }

/-- The events that can reach an `InputState` during a session. -/
inductive InEvent where
  | key (k : Key) (e : InputType) (now : Nat)
  | timeout (now : Nat)

/-- One session step of the input state machine. -/
def InputState.step (s : InputState) : InEvent → InputState
  | .key k e now => s.update_key k e now
  | .timeout now => s.timeout_stale_keys now

/-- Run a whole sequence of session events. -/
def InputState.run (s : InputState) (evs : List InEvent) : InputState :=
  evs.foldl InputState.step s

/-- Projection used to state per-key properties uniformly. -/
def InputState.keyOf (s : InputState) : Key → KeyState
  | .up => s.up
  | .down => s.down
  | .left => s.left
  | .right => s.right
  | .other => { held := false, last_seen := 0 }

/-! ### World generation: shared building blocks

Rust `a % b` on `usize` panics when `b = 0`, and `a - b` panics (debug) when
`b > a`; both abort the run, modelled as `none`. -/

/-- Checked `usize` remainder: `none` models the division-by-zero panic. -/
def rmod (a b : Nat) : Option Nat :=
  if b = 0 then none else some (a % b)

/-- Run one generation pass iteration `n` times, threading the rng state
(the `for _ in 0..n { ... }` loops of both generators). -/
def iterPass (f : Nat → Grid → Option (Nat × Grid)) : Nat → Nat → Grid → Option (Nat × Grid)
  | 0, rng, g => some (rng, g)
  | n + 1, rng, g =>
    match f rng g with
    | some p => iterPass f n p.1 p.2
    | none => none

/-- The horizontal-corridor `while` loop, shared verbatim by
`MapGenerator::generate` and `Map::generate_local`: starting at `y = 2`,
carve a Floor band of height `rand % 15 + 3` clipped to `height - 1`,
skip a Wall gap of `rand % 4 + 1`, repeat while `y < height - 2`.
Callers establish `2 ≤ h` so the `height - 2` in the guard is exact. -/
def hCorrLoop (w h : Nat) (y rng : Nat) (g : Grid) : Nat × Grid :=
  if _hy : y < h - 2 then
    let s1 := rngNext rng
    let ch := s1.2 % 15 + 3
    let s2 := rngNext s1.1
    let wh := s2.2 % 4 + 1
    let g' := (List.range' y (min (y + ch) (h - 1) - y)).foldl
      (fun g cy => (List.range' 1 (w - 1 - 1)).foldl
        (fun g cx => setTile g cy cx Tile.Floor) g) g
    hCorrLoop w h (y + (ch + wh)) s2.1 g'
  else (rng, g)
termination_by (h - 2) - y
decreasing_by omega

/-- The vertical-corridor `while` loop of `Map::generate_local`: starting at
`x = 2`, carve a Floor band of width `rand % 18 + 2` clipped to `width - 1`,
skip a Wall gap of `rand % 6 + 2`, repeat while `x < width - 2`. -/
def vCorrLoop (w h : Nat) (x rng : Nat) (g : Grid) : Nat × Grid :=
  if _hx : x < w - 2 then
    let s1 := rngNext rng
    let cw := s1.2 % 18 + 2
    let s2 := rngNext s1.1
    let ww := s2.2 % 6 + 2
    let g' := (List.range' x (min (x + cw) (w - 1) - x)).foldl
      (fun g cx => (List.range' 1 (h - 1 - 1)).foldl
        (fun g yy => setTile g yy cx Tile.Floor) g) g
    vCorrLoop w h (x + (cw + ww)) s2.1 g'
  else (rng, g)
termination_by (w - 2) - x
decreasing_by omega

/-! ### Client: `Map::generate_local` -/

/-- One room of the client room pass: random size, position drawn modulo
`saturating_sub` bounds (panics on a zero modulus), clamped with `.max(1)`,
rectangle filled with Floor clipped to the sealed border. -/
def clientRoomIter (w h : Nat) (rng : Nat) (g : Grid) : Option (Nat × Grid) :=
  let s1 := rngNext rng
  let room_w := s1.2 % 20 + 5
  let s2 := rngNext s1.1
  let room_h := s2.2 % 15 + 4
  let s3 := rngNext s2.1
  (rmod s3.2 (w - (room_w + 2))).bind fun mx =>
  let room_x := max mx 1
  let s4 := rngNext s3.1
  (rmod s4.2 (h - (room_h + 2))).bind fun my =>
  let room_y := max my 1
  let g' := (List.range' room_y (min (room_y + room_h) (h - 1) - room_y)).foldl
    (fun g ry => (List.range' room_x (min (room_x + room_w) (w - 1) - room_x)).foldl
      (fun g rx => setTile g ry rx Tile.Floor) g) g
  some (s4.1, g')

/-- One nebula zone of the client nebula pass: a clipped rectangle in which
every `Floor` cell (and only those) is converted to `Nebula`. -/
def clientNebulaIter (w h : Nat) (rng : Nat) (g : Grid) : Option (Nat × Grid) :=
  let s1 := rngNext rng
  let neb_w := s1.2 % 30 + 10
  let s2 := rngNext s1.1
  let neb_h := s2.2 % 20 + 8
  let s3 := rngNext s2.1
  (rmod s3.2 (w - (neb_w + 2))).bind fun mx =>
  let neb_x := max mx 1
  let s4 := rngNext s3.1
  (rmod s4.2 (h - (neb_h + 2))).bind fun my =>
  let neb_y := max my 1
  let g' := (List.range' neb_y (min (neb_y + neb_h) (h - 1) - neb_y)).foldl
    (fun g ny => (List.range' neb_x (min (neb_x + neb_w) (w - 1) - neb_x)).foldl
      (fun g nx => if tileAt g ny nx = some Tile.Floor then setTile g ny nx Tile.Nebula else g) g) g
  some (s4.1, g')

/-- One pillar of the client pillar pass: the candidate is rejected when any
cell of its 1-cell-expanded bounding box is already Wall, otherwise the
rectangle is overwritten with Wall. -/
def clientPillarIter (w h : Nat) (rng : Nat) (g : Grid) : Option (Nat × Grid) :=
  let s1 := rngNext rng
  let pillar_w := s1.2 % 8 + 1
  let s2 := rngNext s1.1
  let pillar_h := s2.2 % 8 + 1
  let s3 := rngNext s2.1
  (rmod s3.2 (w - (pillar_w + 4))).bind fun mx =>
  let pillar_x := mx + 2
  let s4 := rngNext s3.1
  (rmod s4.2 (h - (pillar_h + 4))).bind fun my =>
  let pillar_y := my + 2
  let can_place :=
    (List.range' (pillar_y - 1) (min (pillar_y + pillar_h + 1) h - (pillar_y - 1))).all fun py =>
      (List.range' (pillar_x - 1) (min (pillar_x + pillar_w + 1) w - (pillar_x - 1))).all fun px =>
        decide (tileAt g py px ≠ some Tile.Wall)
  let g' :=
    if can_place then
      (List.range' pillar_y (min (pillar_y + pillar_h) (h - 1) - pillar_y)).foldl
        (fun g py => (List.range' pillar_x (min (pillar_x + pillar_w) (w - 1) - pillar_x)).foldl
          (fun g px => setTile g py px Tile.Wall) g) g
    else g
  some (s4.1, g')

/-- One asteroid field of the client asteroid pass: inside a clipped
rectangle, each cell draws a fresh random value and an existing `Floor`
cell becomes `Asteroid` when the draw is divisible by 3. -/
def clientAsteroidIter (w h : Nat) (rng : Nat) (g : Grid) : Option (Nat × Grid) :=
  let s1 := rngNext rng
  let field_w := s1.2 % 15 + 5
  let s2 := rngNext s1.1
  let field_h := s2.2 % 10 + 4
  let s3 := rngNext s2.1
  (rmod s3.2 (w - (field_w + 2))).bind fun mx =>
  let field_x := max mx 1
  let s4 := rngNext s3.1
  (rmod s4.2 (h - (field_h + 2))).bind fun my =>
  let field_y := max my 1
  let res := (List.range' field_y (min (field_y + field_h) (h - 1) - field_y)).foldl
    (fun (p : Nat × Grid) fy =>
      (List.range' field_x (min (field_x + field_w) (w - 1) - field_x)).foldl
        (fun (p : Nat × Grid) fx =>
          let s := rngNext p.1
          if s.2 % 3 = 0 ∧ tileAt p.2 fy fx = some Tile.Floor
          then (s.1, setTile p.2 fy fx Tile.Asteroid) else (s.1, p.2)) p) (s4.1, g)
  some res

/-- The final border-seal pass of `Map::generate_local`: force every cell of
row `0`, row `h-1`, column `0` and column `w-1` back to Wall. -/
def sealBorder (w h : Nat) (g : Grid) : Grid :=
  let g1 := (List.range w).foldl
    (fun g x => setTile (setTile g 0 x Tile.Wall) (h - 1) x Tile.Wall) g
  (List.range h).foldl
    (fun g y => setTile (setTile g y 0 Tile.Wall) y (w - 1) Tile.Wall) g1

/-- `Map::generate_local` with the initial rng state made explicit (the
source fixes `let mut rng_state: u64 = 12345` and never takes a seed).
`none` models a panicking run (`height - 2` or `width - 2` underflow in a
loop guard, or a zero modulus in a placement draw). -/
def generateLocalCore (seed w h : Nat) : Option Map :=
  let g0 : Grid := List.replicate h (List.replicate w Tile.Wall)
  if h < 2 then none
  else
    let r1 := hCorrLoop w h 2 seed g0
    if w < 2 then none
    else
      let r2 := vCorrLoop w h 2 r1.1 r1.2
      (iterPass (clientRoomIter w h) (w * h / 2000) r2.1 r2.2).bind fun r3 =>
      (iterPass (clientNebulaIter w h) (w * h / 5000) r3.1 r3.2).bind fun r4 =>
      (iterPass (clientPillarIter w h) (w * h / 500) r4.1 r4.2).bind fun r5 =>
      (iterPass (clientAsteroidIter w h) (w * h / 3000) r5.1 r5.2).bind fun r6 =>
      some { tiles := sealBorder w h r6.2, width := w, height := h, start_position := none }

/-- `Map::generate_local(width, height)`: the local fallback generator,
rng state initialised to the constant `12345`. -/
def Map.generate_local (w h : Nat) : Option Map :=
  generateLocalCore 12345 w h

/-! ### Server: `MapGenerator` -/

/-- The serialised map payload of the server. -/
structure MapData where
  tiles : Grid
  width : Nat
  height : Nat
  start_x : Int
  start_y : Int

/-- The server `MapGenerator`: a bare LCG state. -/
structure MapGenerator where
  rng_state : Nat

/-- `MapGenerator::new(seed)`. -/
def MapGenerator.new (seed : Nat) : MapGenerator := ⟨seed⟩

/-- One vertical passage of the server passage pass (`i` is the loop index
of `for i in 0..width / 30`): `x = i*30 + 15 + rand % 10`; when `x` is left
of the right border, carve a Floor band of width `rand % 8 + 2`. -/
def serverVPassIter (w h : Nat) (i rng : Nat) (g : Grid) : Nat × Grid :=
  let s1 := rngNext rng
  let x := i * 30 + 15 + s1.2 % 10
  if x < w - 1 then
    let s2 := rngNext s1.1
    let pw := s2.2 % 8 + 2
    let g' := (List.range' x (min (x + pw) (w - 1) - x)).foldl
      (fun g px => (List.range' 1 (h - 1 - 1)).foldl
        (fun g yy => setTile g yy px Tile.Floor) g) g
    (s2.1, g')
  else (s1.1, g)

/-- One room of the server room pass.  The placement modulus
`width - room_w - 2` uses plain (panicking) `usize` subtraction: both the
underflow and the zero-modulus panic are modelled by `rmod` on the
truncated difference. -/
def serverRoomIter (w h : Nat) (rng : Nat) (g : Grid) : Option (Nat × Grid) :=
  let s1 := rngNext rng
  let room_w := s1.2 % 20 + 5
  let s2 := rngNext s1.1
  let room_h := s2.2 % 15 + 5
  let s3 := rngNext s2.1
  (rmod s3.2 (w - (room_w + 2))).bind fun mx =>
  let room_x := mx + 1
  let s4 := rngNext s3.1
  (rmod s4.2 (h - (room_h + 2))).bind fun my =>
  let room_y := my + 1
  let g' := (List.range' room_y (min (room_y + room_h) (h - 1) - room_y)).foldl
    (fun g ry => (List.range' room_x (min (room_x + room_w) (w - 1) - room_x)).foldl
      (fun g rx => setTile g ry rx Tile.Floor) g) g
  some (s4.1, g')

/-- One asteroid field of the server asteroid pass (circular cluster).
The source compares `(dx*dx + dy*dy) as f32 < (fs*fs) as f32 * 0.7`; for
`fs ∈ [3,10]` an exact analysis of the `f32` rounding of `0.7` and of the
product shows the comparison against an integer left-hand side is
equivalent to the exact rational test `10*(dx*dx+dy*dy) < 7*fs*fs`, which
is what is used here.  A cell is converted only when it is `Floor`, lies
strictly inside the border and a fresh draw is not divisible by 3 (the
draw happens only when the cell is `Floor`, per `&&` short-circuiting). -/
def serverAsteroidIter (w h : Nat) (rng : Nat) (g : Grid) : Option (Nat × Grid) :=
  let s1 := rngNext rng
  (rmod s1.2 (w - 20)).bind fun mxr =>
  let center_x := mxr + 10
  let s2 := rngNext s1.1
  (rmod s2.2 (h - 10)).bind fun myr =>
  let center_y := myr + 5
  let s3 := rngNext s2.1
  let fs := s3.2 % 8 + 3
  let res := (intRange (-(fs : Int)) (2 * fs + 1)).foldl (fun (p : Nat × Grid) dy =>
    (intRange (-(fs : Int)) (2 * fs + 1)).foldl (fun (p : Nat × Grid) dx =>
      if 10 * (dx * dx + dy * dy) < 7 * (fs : Int) * (fs : Int) then
        let ax := usizeOf (i32Of center_x + dx)
        let ay := usizeOf (i32Of center_y + dy)
        if 0 < ax ∧ ax < w - 1 ∧ 0 < ay ∧ ay < h - 1 then
          if tileAt p.2 ay ax = some Tile.Floor then
            let s := rngNext p.1
            if s.2 % 3 ≠ 0 then (s.1, setTile p.2 ay ax Tile.Asteroid) else (s.1, p.2)
          else p
        else p
      else p) p) (s3.1, g)
  some res

/-- One nebula zone of the server nebula pass (circular region).  The
`f32` test `dist < (ns*ns) as f32 * 0.8` is, for `ns ∈ [5,16]` and an
integer `dist`, exactly the rational test `10*dist < 8*ns*ns` (same
rounding analysis as for the asteroid pass).  Only `Floor` cells strictly
inside the border are converted to `Nebula`. -/
def serverNebulaIter (w h : Nat) (rng : Nat) (g : Grid) : Option (Nat × Grid) :=
  let s1 := rngNext rng
  (rmod s1.2 (w - 30)).bind fun mxr =>
  let center_x := mxr + 15
  let s2 := rngNext s1.1
  (rmod s2.2 (h - 15)).bind fun myr =>
  let center_y := myr + 7
  let s3 := rngNext s2.1
  let ns := s3.2 % 12 + 5
  let g' := (intRange (-(ns : Int)) (2 * ns + 1)).foldl (fun (g : Grid) dy =>
    (intRange (-(ns : Int)) (2 * ns + 1)).foldl (fun (g : Grid) dx =>
      if 10 * (dx * dx + dy * dy) < 8 * (ns : Int) * (ns : Int) then
        let nx := usizeOf (i32Of center_x + dx)
        let ny := usizeOf (i32Of center_y + dy)
        if 0 < nx ∧ nx < w - 1 ∧ 0 < ny ∧ ny < h - 1 then
          if tileAt g ny nx = some Tile.Floor then setTile g ny nx Tile.Nebula else g
        else g
      else g) g) g
  some (s3.1, g')

/-! ### Start resolution -/

/-- The `-(r as i32)..=(r as i32)` delta list of one search ring.  For any
radius below 2^31 (every case that can arise from a materialised grid) the
cast is the identity and the list is `-r..=r`. -/
def deltaList (r : Nat) : List Int :=
  let ri := i32Of r
  if ri < 0 then [] else intRange (-ri) (2 * ri.toNat + 1)

/-- The cell coordinates scanned by the client expanding-ring search, in
scan order: radius `0, 1, ..., max(width,height) - 1` (outer), `dy` (middle),
`dx` (inner). -/
def clientCandidates (w h : Nat) : List (Int × Int) :=
  (List.range (max w h)).flatMap fun r =>
    (deltaList r).flatMap fun dy =>
      (deltaList r).map fun dx => (i32Of (w / 2) + dx, i32Of (h / 2) + dy)

/-- `Map::find_start_position`: a server-provided start is returned as-is;
otherwise the first passable candidate of the expanding-ring scan, with
`(1,1)` as the last-resort default. -/
def Map.find_start_position (m : Map) : Int × Int :=
  match m.start_position with
  | some pos => pos
  | none =>
    match (clientCandidates m.width m.height).find? (fun c => m.is_passable c.1 c.2) with
    | some c => c
    | none => (1, 1)

/-- Passability of `tiles[y][x]` for a bare grid (server side). -/
def passableB (tiles : Grid) (y x : Nat) : Bool :=
  ((tileAt tiles y x).map Tile.is_passable).getD false

/-- The cell coordinates scanned by the server search: the ring radius is
capped at the fixed constant 50 (`for radius in 0..50`), and each candidate
is cast through `as usize` before the `x < width && y < height` check. -/
def serverCandidates (cx cy : Nat) : List (Nat × Nat) :=
  (List.range 50).flatMap fun r =>
    (deltaList r).flatMap fun dy =>
      (deltaList r).map fun dx => (usizeOf (i32Of cx + dx), usizeOf (i32Of cy + dy))

/-- `MapGenerator::find_start_position`: first in-bounds passable candidate
of the capped ring scan around `(width/2, height/2)`, else `(1,1)`. -/
def MapGenerator.find_start_position (tiles : Grid) (w h : Nat) : Int × Int :=
  match (serverCandidates (w / 2) (h / 2)).find?
      (fun c => decide (c.1 < w) && decide (c.2 < h) && passableB tiles c.2 c.1) with
  | some c => (i32Of c.1, i32Of c.2)
  | none => (1, 1)

/-- `MapGenerator::generate(width, height)`: base Wall fill, horizontal
corridors, vertical passages, rooms, asteroid fields, nebula zones, then
start resolution.  (The server has no pillar pass and no border-seal pass,
and runs asteroids before nebulae.)  `none` models a panicking run; the
`w = 0 ∧ 4 < h` guard models the `1..width - 1` underflow panic inside the
first executed corridor carve. -/
def MapGenerator.generate (gen : MapGenerator) (w h : Nat) : Option MapData :=
  let g0 : Grid := List.replicate h (List.replicate w Tile.Wall)
  if h < 2 then none
  else if w = 0 ∧ 4 < h then none
  else
    let r1 := hCorrLoop w h 2 gen.rng_state g0
    let r2 := (List.range (w / 30)).foldl
      (fun (p : Nat × Grid) i => serverVPassIter w h i p.1 p.2) r1
    (iterPass (serverRoomIter w h) (w * h / 2000) r2.1 r2.2).bind fun r3 =>
    (iterPass (serverAsteroidIter w h) (w * h / 5000) r3.1 r3.2).bind fun r4 =>
    (iterPass (serverNebulaIter w h) (w * h / 8000) r4.1 r4.2).bind fun r5 =>
    let start := MapGenerator.find_start_position r5.2 w h
    some { tiles := r5.2, width := w, height := h, start_x := start.1, start_y := start.2 }

/-! ### Grid lemmas -/

theorem length_setTile (g : Grid) (y x : Nat) (t : Tile) :
    (setTile g y x t).length = g.length := by
  unfold setTile
  cases hrow : g[y]? with
  | none => rfl
  | some row => simp

theorem tileAt_setTile_ne (g : Grid) (y x y' x' : Nat) (t : Tile)
    (hne : y ≠ y' ∨ x ≠ x') :
    tileAt (setTile g y x t) y' x' = tileAt g y' x' := by
  unfold setTile tileAt
  cases hrow : g[y]? with
  | none => rfl
  | some row =>
    rcases hne with hy | hx
    · simp [List.getElem?_set_ne hy]
    · rcases eq_or_ne y y' with rfl | hyy
      · rcases Nat.lt_or_ge y g.length with hlt | hge
        · simp [List.getElem?_set_self hlt, hrow, List.getElem?_set_ne hx]
        · have : g[y]? = none := List.getElem?_eq_none hge
          simp [this] at hrow
      · simp [List.getElem?_set_ne hyy]

theorem tileAt_setTile_self (g : Grid) (y x : Nat) (t : Tile)
    (hs : (tileAt g y x).isSome) :
    tileAt (setTile g y x t) y x = some t := by
  unfold tileAt at hs
  unfold setTile tileAt
  cases hrow : g[y]? with
  | none => simp [hrow] at hs
  | some row =>
    have hy : y < g.length := by
      rcases Nat.lt_or_ge y g.length with hlt | hge
      · exact hlt
      · simp [List.getElem?_eq_none hge] at hrow
    have hx : x < row.length := by
      simp [hrow] at hs
      rcases Nat.lt_or_ge x row.length with hlt | hge
      · exact hlt
      · simp [List.getElem?_eq_none hge] at hs
    simp [List.getElem?_set_self hy, hrow, List.getElem?_set_self hx]

/-- A rectangular `h × w` grid. -/
def Shaped (w h : Nat) (g : Grid) : Prop :=
  g.length = h ∧ ∀ row ∈ g, row.length = w

theorem shaped_setTile {w h : Nat} {g : Grid} (hS : Shaped w h g) (y x : Nat) (t : Tile) :
    Shaped w h (setTile g y x t) := by
  obtain ⟨hlen, hrows⟩ := hS
  unfold setTile
  cases hrow : g[y]? with
  | none => exact ⟨hlen, hrows⟩
  | some row =>
    refine ⟨by simpa using hlen, ?_⟩
    intro r hr
    rcases List.mem_or_eq_of_mem_set hr with hmem | rfl
    · exact hrows r hmem
    · have : row ∈ g := List.getElem?_mem hrow
      simpa using hrows row this

theorem tileAt_isSome_of_shaped {w h : Nat} {g : Grid} (hS : Shaped w h g)
    {y x : Nat} (hy : y < h) (hx : x < w) : (tileAt g y x).isSome := by
  obtain ⟨hlen, hrows⟩ := hS
  unfold tileAt
  have hy' : y < g.length := by omega
  cases hrow : g[y]? with
  | none => simp [List.getElem?_eq_none_iff] at hrow; omega
  | some row =>
    have : row ∈ g := List.getElem?_mem hrow
    have hxlt : x < row.length := by rw [hrows row this]; exact hx
    have hsome : row[x]? = some (row.get ⟨x, hxlt⟩) := by
      rw [List.getElem?_eq_getElem hxlt]
      rfl
    simp [hsome]

theorem tileAt_replicate {w h : Nat} {y x : Nat} (hy : y < h) (hx : x < w) :
    tileAt (List.replicate h (List.replicate w Tile.Wall)) y x = some Tile.Wall := by
  unfold tileAt
  simp [List.getElem?_replicate, hy, hx]

theorem shaped_replicate (w h : Nat) :
    Shaped w h (List.replicate h (List.replicate w Tile.Wall)) := by
  refine ⟨by simp, ?_⟩
  intro row hrow
  have := List.eq_of_mem_replicate hrow
  simp [this]

/-! ### Fold helpers -/

theorem foldlInv {α β : Type _} (Inv : α → Prop) (f : α → β → α) (l : List β) (a : α)
    (step : ∀ a b, b ∈ l → Inv a → Inv (f a b)) (ha : Inv a) : Inv (l.foldl f a) := by
  induction l generalizing a with
  | nil => simpa using ha
  | cons hd tl ih =>
    rw [List.foldl_cons]
    exact ih (f a hd) (fun a b hb => step a b (List.mem_cons_of_mem _ hb))
      (step a hd (List.mem_cons_self _ _) ha)

theorem foldlEstablish {α β : Type _} (Inv : α → Prop) (P : β → α → Prop)
    (f : α → β → α) (l : List β) (a : α)
    (hInv : ∀ a b, b ∈ l → Inv a → Inv (f a b))
    (est : ∀ a b, b ∈ l → Inv a → P b (f a b))
    (pres : ∀ a b b', b' ∈ l → P b a → P b (f a b'))
    (ha : Inv a) : ∀ b ∈ l, P b (l.foldl f a) := by
  induction l generalizing a with
  | nil => intro b hb; simp at hb
  | cons hd tl ih =>
    intro b hb
    rw [List.foldl_cons]
    rcases List.mem_cons.mp hb with rfl | hbtl
    · exact foldlInv (P b) f tl (f a b)
        (fun a' b' hb' hP => pres a' b b' (List.mem_cons_of_mem _ hb') hP)
        (est a b (List.mem_cons_self _ _) ha)
    · exact ih (f a hd)
        (fun a' b' hb' => hInv a' b' (List.mem_cons_of_mem _ hb'))
        (fun a' b' hb' => est a' b' (List.mem_cons_of_mem _ hb'))
        (fun a' b' b'' hb'' => pres a' b' b'' (List.mem_cons_of_mem _ hb''))
        (hInv a hd (List.mem_cons_self _ _) ha) b hbtl

theorem iterPassInv (Inv : Grid → Prop) (f : Nat → Grid → Option (Nat × Grid))
    (step : ∀ rng g p, f rng g = some p → Inv g → Inv p.2) :
    ∀ n rng g p, iterPass f n rng g = some p → Inv g → Inv p.2 := by
  intro n
  induction n with
  | zero =>
    intro rng g p hit hg
    unfold iterPass at hit
    cases hit
    exact hg
  | succ k ih =>
    intro rng g p hit hg
    unfold iterPass at hit
    cases hf : f rng g with
    | none => rw [hf] at hit; cases hit
    | some q =>
      rw [hf] at hit
      exact ih q.1 q.2 p hit (step rng g q hf hg)

/-- Membership in the step-1 ranges used by every carve loop. -/
theorem mem_range'_bounds {a n v : Nat} (hv : v ∈ List.range' a n) :
    a ≤ v ∧ v < a + n := by
  rw [List.mem_range'] at hv
  obtain ⟨i, hi, rfl⟩ := hv
  omega

/-! ### The sealed-border invariant -/

/-- All border cells of the `w × h` grid are Wall. -/
def BW (w h : Nat) (g : Grid) : Prop :=
  ∀ y, y < h → ∀ x, x < w → (y = 0 ∨ y = h - 1 ∨ x = 0 ∨ x = w - 1) →
    tileAt g y x = some Tile.Wall

theorem bw_setTile_interior {w h : Nat} {g : Grid} {y0 x0 : Nat} (t : Tile)
    (hy0 : 1 ≤ y0) (hy0' : y0 + 1 < h) (hx0 : 1 ≤ x0) (hx0' : x0 + 1 < w)
    (hg : BW w h g) : BW w h (setTile g y0 x0 t) := by
  intro y hy x hx hb
  rw [tileAt_setTile_ne]
  · exact hg y hy x hx hb
  · omega

/-- A row-major rectangle fill with interior coordinates preserves `BW`. -/
theorem bw_fillRect {w h : Nat} (y0 ny x0 nx : Nat) (t : Tile)
    (hrow : ∀ cy, cy ∈ List.range' y0 ny → 1 ≤ cy ∧ cy + 1 < h)
    (hcol : ∀ cx, cx ∈ List.range' x0 nx → 1 ≤ cx ∧ cx + 1 < w)
    {g : Grid} (hg : BW w h g) :
    BW w h ((List.range' y0 ny).foldl
      (fun g cy => (List.range' x0 nx).foldl (fun g cx => setTile g cy cx t) g) g) := by
  refine foldlInv (BW w h) _ _ _ ?_ hg
  intro a cy hcy ha
  refine foldlInv (BW w h) _ _ _ ?_ ha
  intro a2 cx hcx ha2
  obtain ⟨h1, h2⟩ := hrow cy hcy
  obtain ⟨h3, h4⟩ := hcol cx hcx
  exact bw_setTile_interior t h1 h2 h3 h4 ha2

/-- The column-major variant (outer loop over `x`). -/
theorem bw_fillRectT {w h : Nat} (x0 nx y0 ny : Nat) (t : Tile)
    (hcol : ∀ cx, cx ∈ List.range' x0 nx → 1 ≤ cx ∧ cx + 1 < w)
    (hrow : ∀ cy, cy ∈ List.range' y0 ny → 1 ≤ cy ∧ cy + 1 < h)
    {g : Grid} (hg : BW w h g) :
    BW w h ((List.range' x0 nx).foldl
      (fun g cx => (List.range' y0 ny).foldl (fun g cy => setTile g cy cx t) g) g) := by
  refine foldlInv (BW w h) _ _ _ ?_ hg
  intro a cx hcx ha
  refine foldlInv (BW w h) _ _ _ ?_ ha
  intro a2 cy hcy ha2
  obtain ⟨h1, h2⟩ := hcol cx hcx
  obtain ⟨h3, h4⟩ := hrow cy hcy
  exact bw_setTile_interior t h3 h4 h1 h2 ha2

theorem hCorrLoop_bw (w h : Nat) : ∀ y rng (g : Grid), 1 ≤ y → BW w h g →
    BW w h (hCorrLoop w h y rng g).2 := by
  intro y rng g
  induction y, rng, g using hCorrLoop.induct w h with
  | case1 y rng g hlt s1 ch s2 wh g' ih =>
    intro hy hg
    rw [hCorrLoop.eq_def]
    simp only [dif_pos hlt]
    refine ih (by omega) ?_
    refine bw_fillRect _ _ _ _ _ ?_ ?_ hg
    · intro cy hcy
      have hb := mem_range'_bounds hcy
      have hmin : min (y + ((rngNext rng).2 % 15 + 3)) (h - 1) ≤ h - 1 := Nat.min_le_right _ _
      omega
    · intro cx hcx
      have hb := mem_range'_bounds hcx
      omega
  | case2 y rng g hlt =>
    intro hy hg
    rw [hCorrLoop.eq_def]
    simp only [dif_neg hlt]
    exact hg

theorem serverVPassIter_bw {w h : Nat} (i rng : Nat) {g : Grid} (hg : BW w h g) :
    BW w h (serverVPassIter w h i rng g).2 := by
  simp only [serverVPassIter]
  split
  · refine bw_fillRectT _ _ _ _ _ ?_ ?_ hg
    · intro px hpx
      have hb := mem_range'_bounds hpx
      have hmin : min (i * 30 + 15 + (rngNext rng).2 % 10 + (rngNext (rngNext rng).1).2 % 8 + 2)
          (w - 1) ≤ w - 1 := Nat.min_le_right _ _
      omega
    · intro yy hyy
      have hb := mem_range'_bounds hyy
      omega
  · exact hg

theorem serverRoomIter_bw {w h : Nat} (rng : Nat) {g : Grid} {p : Nat × Grid}
    (hp : serverRoomIter w h rng g = some p) (hg : BW w h g) : BW w h p.2 := by
  simp only [serverRoomIter, Option.bind_eq_some, Option.some.injEq] at hp
  obtain ⟨mx, hmx, my, hmy, hp⟩ := hp
  subst hp
  refine bw_fillRect _ _ _ _ _ ?_ ?_ hg
  · intro ry hry
    have hb := mem_range'_bounds hry
    have hmin : min (my + 1 + ((rngNext (rngNext rng).1).2 % 15 + 5)) (h - 1) ≤ h - 1 :=
      Nat.min_le_right _ _
    omega
  · intro rx hrx
    have hb := mem_range'_bounds hrx
    have hmin : min (mx + 1 + ((rngNext rng).2 % 20 + 5)) (w - 1) ≤ w - 1 :=
      Nat.min_le_right _ _
    omega

theorem serverAsteroidIter_bw {w h : Nat} (rng : Nat) {g : Grid} {p : Nat × Grid}
    (hp : serverAsteroidIter w h rng g = some p) (hg : BW w h g) : BW w h p.2 := by
  simp only [serverAsteroidIter, Option.bind_eq_some, Option.some.injEq] at hp
  obtain ⟨mx, hmx, my, hmy, hp⟩ := hp
  subst hp
  refine foldlInv (fun q : Nat × Grid => BW w h q.2) _ _ _ ?_ hg
  intro a dy hdy ha
  refine foldlInv (fun q : Nat × Grid => BW w h q.2) _ _ _ ?_ ha
  intro a2 dx hdx ha2
  dsimp only
  split
  · split
    · next hguard =>
      split
      · split
        · exact bw_setTile_interior _ (by omega) (by omega) (by omega) (by omega) ha2
        · exact ha2
      · exact ha2
    · exact ha2
  · exact ha2

theorem serverNebulaIter_bw {w h : Nat} (rng : Nat) {g : Grid} {p : Nat × Grid}
    (hp : serverNebulaIter w h rng g = some p) (hg : BW w h g) : BW w h p.2 := by
  simp only [serverNebulaIter, Option.bind_eq_some, Option.some.injEq] at hp
  obtain ⟨mx, hmx, my, hmy, hp⟩ := hp
  subst hp
  refine foldlInv (BW w h) _ _ _ ?_ hg
  intro a dy hdy ha
  refine foldlInv (BW w h) _ _ _ ?_ ha
  intro a2 dx hdx ha2
  dsimp only
  split
  · split
    · next hguard =>
      split
      · exact bw_setTile_interior _ (by omega) (by omega) (by omega) (by omega) ha2
      · exact ha2
    · exact ha2
  · exact ha2

/-- Every grid the server generator returns has an all-Wall border, even
though the server has no explicit border-seal pass: every carve of every
pass stays strictly inside the border. -/
theorem serverGenerate_bw {seed w h : Nat} {md : MapData}
    (hp : (MapGenerator.new seed).generate w h = some md) : BW w h md.tiles := by
  simp only [MapGenerator.new, MapGenerator.generate] at hp
  split at hp
  · cases hp
  · split at hp
    · cases hp
    · simp only [Option.bind_eq_some, Option.some.injEq] at hp
      obtain ⟨r3, h3, r4, h4, r5, h5, hp⟩ := hp
      subst hp
      show BW w h r5.2
      have hbase : BW w h (List.replicate h (List.replicate w Tile.Wall)) := by
        intro y hy x hx _
        exact tileAt_replicate hy hx
      have h1 : BW w h (hCorrLoop w h 2 seed (List.replicate h (List.replicate w Tile.Wall))).2 :=
        hCorrLoop_bw w h 2 seed _ (by omega) hbase
      have h2 : BW w h ((List.range (w / 30)).foldl
          (fun (p : Nat × Grid) i => serverVPassIter w h i p.1 p.2)
          (hCorrLoop w h 2 seed (List.replicate h (List.replicate w Tile.Wall)))).2 := by
        refine foldlInv (fun q : Nat × Grid => BW w h q.2) _ _ _ ?_ h1
        intro a i _ ha
        exact serverVPassIter_bw i a.1 ha
      have hr3 : BW w h r3.2 :=
        iterPassInv (BW w h) _ (fun rng g p hpq hgq => serverRoomIter_bw rng hpq hgq)
          _ _ _ _ h3 h2
      have hr4 : BW w h r4.2 :=
        iterPassInv (BW w h) _ (fun rng g p hpq hgq => serverAsteroidIter_bw rng hpq hgq)
          _ _ _ _ h4 hr3
      exact iterPassInv (BW w h) _ (fun rng g p hpq hgq => serverNebulaIter_bw rng hpq hgq)
        _ _ _ _ h5 hr4

/-! ### Shape preservation of the client passes and the border seal -/

theorem hCorrLoop_shaped (w h : Nat) : ∀ y rng (g : Grid), Shaped w h g →
    Shaped w h (hCorrLoop w h y rng g).2 := by
  intro y rng g
  induction y, rng, g using hCorrLoop.induct w h with
  | case1 y rng g hlt s1 ch s2 wh g' ih =>
    intro hg
    rw [hCorrLoop.eq_def]
    simp only [dif_pos hlt]
    refine ih ?_
    refine foldlInv (Shaped w h) _ _ _ ?_ hg
    intro a cy _ ha
    refine foldlInv (Shaped w h) _ _ _ ?_ ha
    intro a2 cx _ ha2
    exact shaped_setTile ha2 _ _ _
  | case2 y rng g hlt =>
    intro hg
    rw [hCorrLoop.eq_def]
    simp only [dif_neg hlt]
    exact hg

theorem vCorrLoop_shaped (w h : Nat) : ∀ x rng (g : Grid), Shaped w h g →
    Shaped w h (vCorrLoop w h x rng g).2 := by
  intro x rng g
  induction x, rng, g using vCorrLoop.induct w h with
  | case1 x rng g hlt s1 cw s2 ww g' ih =>
    intro hg
    rw [vCorrLoop.eq_def]
    simp only [dif_pos hlt]
    refine ih ?_
    refine foldlInv (Shaped w h) _ _ _ ?_ hg
    intro a cx _ ha
    refine foldlInv (Shaped w h) _ _ _ ?_ ha
    intro a2 yy _ ha2
    exact shaped_setTile ha2 _ _ _
  | case2 x rng g hlt =>
    intro hg
    rw [vCorrLoop.eq_def]
    simp only [dif_neg hlt]
    exact hg

theorem clientRoomIter_shaped {w h : Nat} (rng : Nat) {g : Grid} {p : Nat × Grid}
    (hp : clientRoomIter w h rng g = some p) (hg : Shaped w h g) : Shaped w h p.2 := by
  simp only [clientRoomIter, Option.bind_eq_some, Option.some.injEq] at hp
  obtain ⟨mx, hmx, my, hmy, hp⟩ := hp
  subst hp
  refine foldlInv (Shaped w h) _ _ _ ?_ hg
  intro a ry _ ha
  refine foldlInv (Shaped w h) _ _ _ ?_ ha
  intro a2 rx _ ha2
  exact shaped_setTile ha2 _ _ _

theorem clientNebulaIter_shaped {w h : Nat} (rng : Nat) {g : Grid} {p : Nat × Grid}
    (hp : clientNebulaIter w h rng g = some p) (hg : Shaped w h g) : Shaped w h p.2 := by
  simp only [clientNebulaIter, Option.bind_eq_some, Option.some.injEq] at hp
  obtain ⟨mx, hmx, my, hmy, hp⟩ := hp
  subst hp
  refine foldlInv (Shaped w h) _ _ _ ?_ hg
  intro a ny _ ha
  refine foldlInv (Shaped w h) _ _ _ ?_ ha
  intro a2 nx _ ha2
  dsimp only
  split
  · exact shaped_setTile ha2 _ _ _
  · exact ha2

theorem clientPillarIter_shaped {w h : Nat} (rng : Nat) {g : Grid} {p : Nat × Grid}
    (hp : clientPillarIter w h rng g = some p) (hg : Shaped w h g) : Shaped w h p.2 := by
  simp only [clientPillarIter, Option.bind_eq_some, Option.some.injEq] at hp
  obtain ⟨mx, hmx, my, hmy, hp⟩ := hp
  subst hp
  dsimp only
  split
  · refine foldlInv (Shaped w h) _ _ _ ?_ hg
    intro a py _ ha
    refine foldlInv (Shaped w h) _ _ _ ?_ ha
    intro a2 px _ ha2
    exact shaped_setTile ha2 _ _ _
  · exact hg

theorem clientAsteroidIter_shaped {w h : Nat} (rng : Nat) {g : Grid} {p : Nat × Grid}
    (hp : clientAsteroidIter w h rng g = some p) (hg : Shaped w h g) : Shaped w h p.2 := by
  simp only [clientAsteroidIter, Option.bind_eq_some, Option.some.injEq] at hp
  obtain ⟨mx, hmx, my, hmy, hp⟩ := hp
  subst hp
  refine foldlInv (fun q : Nat × Grid => Shaped w h q.2) _ _ _ ?_ hg
  intro a fy _ ha
  refine foldlInv (fun q : Nat × Grid => Shaped w h q.2) _ _ _ ?_ ha
  intro a2 fx _ ha2
  dsimp only
  split
  · exact shaped_setTile ha2 _ _ _
  · exact ha2

/-- Writing Wall anywhere never destroys a Wall already in place. -/
theorem tileAt_setTile_wall_stable {g : Grid} {y x a b : Nat}
    (hw : tileAt g y x = some Tile.Wall) :
    tileAt (setTile g a b Tile.Wall) y x = some Tile.Wall := by
  by_cases hab : a = y ∧ b = x
  · obtain ⟨rfl, rfl⟩ := hab
    exact tileAt_setTile_self _ _ _ _ (by simp [hw])
  · rw [tileAt_setTile_ne]
    · exact hw
    · tauto

theorem sealBorder_shaped {w h : Nat} {g : Grid} (hS : Shaped w h g) :
    Shaped w h (sealBorder w h g) := by
  simp only [sealBorder]
  refine foldlInv (Shaped w h) _ _ _ ?_ ?_
  · intro a y _ ha
    exact shaped_setTile (shaped_setTile ha _ _ _) _ _ _
  · refine foldlInv (Shaped w h) _ _ _ ?_ hS
    intro a x _ ha
    exact shaped_setTile (shaped_setTile ha _ _ _) _ _ _

/-- The explicit border seal establishes the all-Wall border on any
rectangular grid. -/
theorem sealBorder_bw {w h : Nat} {g : Grid} (hS : Shaped w h g)
    (hw2 : 2 ≤ w) (hh2 : 2 ≤ h) : BW w h (sealBorder w h g) := by
  simp only [sealBorder]
  set f1 : Grid → Nat → Grid :=
    fun g x => setTile (setTile g 0 x Tile.Wall) (h - 1) x Tile.Wall with hf1
  set f2 : Grid → Nat → Grid :=
    fun g y => setTile (setTile g y 0 Tile.Wall) y (w - 1) Tile.Wall with hf2
  set g1 : Grid := (List.range w).foldl f1 g with hg1
  have hS1 : Shaped w h g1 := by
    rw [hg1]
    refine foldlInv (Shaped w h) _ _ _ ?_ hS
    intro a x _ ha
    exact shaped_setTile (shaped_setTile ha _ _ _) _ _ _
  have hTop : ∀ x ∈ List.range w,
      tileAt g1 0 x = some Tile.Wall ∧ tileAt g1 (h - 1) x = some Tile.Wall := by
    rw [hg1]
    refine foldlEstablish (Shaped w h)
      (fun x g => tileAt g 0 x = some Tile.Wall ∧ tileAt g (h - 1) x = some Tile.Wall)
      f1 _ _ ?_ ?_ ?_ hS
    · intro a b _ ha
      exact shaped_setTile (shaped_setTile ha _ _ _) _ _ _
    · intro a b hb ha
      have hbw : b < w := List.mem_range.mp hb
      have hsome1 : (tileAt a 0 b).isSome :=
        tileAt_isSome_of_shaped ha (by omega) hbw
      have hsome2 : (tileAt (setTile a 0 b Tile.Wall) (h - 1) b).isSome :=
        tileAt_isSome_of_shaped (shaped_setTile ha _ _ _) (by omega) hbw
      constructor
      · rw [hf1]
        rw [tileAt_setTile_ne _ _ _ _ _ _ (by omega)]
        exact tileAt_setTile_self _ _ _ _ hsome1
      · rw [hf1]
        exact tileAt_setTile_self _ _ _ _ hsome2
    · intro a b b' _ hP
      exact ⟨tileAt_setTile_wall_stable (tileAt_setTile_wall_stable hP.1),
        tileAt_setTile_wall_stable (tileAt_setTile_wall_stable hP.2)⟩
  have hSide : ∀ y ∈ List.range h,
      tileAt ((List.range h).foldl f2 g1) y 0 = some Tile.Wall ∧
      tileAt ((List.range h).foldl f2 g1) y (w - 1) = some Tile.Wall := by
    refine foldlEstablish (Shaped w h)
      (fun y g => tileAt g y 0 = some Tile.Wall ∧ tileAt g y (w - 1) = some Tile.Wall)
      f2 _ _ ?_ ?_ ?_ hS1
    · intro a b _ ha
      exact shaped_setTile (shaped_setTile ha _ _ _) _ _ _
    · intro a b hb ha
      have hbh : b < h := List.mem_range.mp hb
      have hsome1 : (tileAt a b 0).isSome :=
        tileAt_isSome_of_shaped ha hbh (by omega)
      have hsome2 : (tileAt (setTile a b 0 Tile.Wall) b (w - 1)).isSome :=
        tileAt_isSome_of_shaped (shaped_setTile ha _ _ _) hbh (by omega)
      constructor
      · rw [hf2]
        rw [tileAt_setTile_ne _ _ _ _ _ _ (by omega)]
        exact tileAt_setTile_self _ _ _ _ hsome1
      · rw [hf2]
        exact tileAt_setTile_self _ _ _ _ hsome2
    · intro a b b' _ hP
      exact ⟨tileAt_setTile_wall_stable (tileAt_setTile_wall_stable hP.1),
        tileAt_setTile_wall_stable (tileAt_setTile_wall_stable hP.2)⟩
  have hKeep : ∀ y x, tileAt g1 y x = some Tile.Wall →
      tileAt ((List.range h).foldl f2 g1) y x = some Tile.Wall := by
    intro y x hwall
    refine foldlInv (fun g => tileAt g y x = some Tile.Wall) _ _ _ ?_ hwall
    intro a b _ ha
    rw [hf2]
    exact tileAt_setTile_wall_stable (tileAt_setTile_wall_stable ha)
  intro y hy x hx hb
  rcases hb with rfl | rfl | rfl | rfl
  · exact hKeep 0 x (hTop x (List.mem_range.mpr hx)).1
  · exact hKeep (h - 1) x (hTop x (List.mem_range.mpr hx)).2
  · exact (hSide y (List.mem_range.mpr hy)).1
  · exact (hSide y (List.mem_range.mpr hy)).2

/-- Every grid the client local fallback generator returns has an all-Wall
border: the final seal pass forces it regardless of the earlier passes. -/
theorem generateLocal_bw {w h : Nat} {m : Map}
    (hp : Map.generate_local w h = some m) : BW w h m.tiles := by
  simp only [Map.generate_local, generateLocalCore] at hp
  by_cases hh : h < 2
  · rw [if_pos hh] at hp; cases hp
  · rw [if_neg hh] at hp
    by_cases hw : w < 2
    · rw [if_pos hw] at hp; cases hp
    · rw [if_neg hw] at hp
      simp only [Option.bind_eq_some, Option.some.injEq] at hp
      obtain ⟨r3, h3, r4, h4, r5, h5, r6, h6, hp⟩ := hp
      subst hp
      show BW w h (sealBorder w h r6.2)
      have hS0 := shaped_replicate w h
      have hS1 := hCorrLoop_shaped w h 2 12345 _ hS0
      have hS2 := vCorrLoop_shaped w h 2
        (hCorrLoop w h 2 12345 (List.replicate h (List.replicate w Tile.Wall))).1 _ hS1
      have hS3 : Shaped w h r3.2 :=
        iterPassInv (Shaped w h) _ (fun rng g p hpq hgq => clientRoomIter_shaped rng hpq hgq)
          _ _ _ _ h3 hS2
      have hS4 : Shaped w h r4.2 :=
        iterPassInv (Shaped w h) _ (fun rng g p hpq hgq => clientNebulaIter_shaped rng hpq hgq)
          _ _ _ _ h4 hS3
      have hS5 : Shaped w h r5.2 :=
        iterPassInv (Shaped w h) _ (fun rng g p hpq hgq => clientPillarIter_shaped rng hpq hgq)
          _ _ _ _ h5 hS4
      have hS6 : Shaped w h r6.2 :=
        iterPassInv (Shaped w h) _ (fun rng g p hpq hgq => clientAsteroidIter_shaped rng hpq hgq)
          _ _ _ _ h6 hS5
      exact sealBorder_bw hS6 (by omega) (by omega)

/-! ### Cast and range helper lemmas -/

theorem i32Of_small {n : Nat} (hn : n < 2147483648) : i32Of n = (n : Int) := by
  unfold i32Of
  have h32 : n % 4294967296 = n := Nat.mod_eq_of_lt (by omega)
  simp only [h32]
  rw [if_pos (by exact_mod_cast hn)]

theorem usizeOf_nonneg_small {v : Int} (h0 : 0 ≤ v) (hv : v < 18446744073709551616) :
    usizeOf v = v.toNat := by
  unfold usizeOf
  rw [Int.emod_eq_of_lt h0 hv]

theorem mem_intRange_iff {lo : Int} {n : Nat} {v : Int} :
    v ∈ intRange lo n ↔ lo ≤ v ∧ v < lo + n := by
  unfold intRange
  rw [List.mem_map]
  constructor
  · rintro ⟨i, hi, rfl⟩
    rw [List.mem_range] at hi
    omega
  · rintro ⟨h1, h2⟩
    refine ⟨(v - lo).toNat, ?_, ?_⟩
    · rw [List.mem_range]; omega
    · omega

theorem mem_deltaList_iff {r : Nat} (hr : r < 2147483648) {d : Int} :
    d ∈ deltaList r ↔ -(r : Int) ≤ d ∧ d ≤ r := by
  unfold deltaList
  rw [i32Of_small hr]
  have : ¬((r : Int) < 0) := by omega
  rw [if_neg this]
  rw [mem_intRange_iff]
  have : ((r : Int)).toNat = r := by omega
  rw [this]
  omega

theorem passableB_iff {g : Grid} {y x : Nat} :
    passableB g y x = true ↔ ∃ t, tileAt g y x = some t ∧ t.is_passable = true := by
  unfold passableB
  cases ht : tileAt g y x with
  | none => simp
  | some t => simp [ht]

theorem tileAt_some_bounds {w h : Nat} {g : Grid} (hS : Shaped w h g)
    {y x : Nat} {t : Tile} (ht : tileAt g y x = some t) : y < h ∧ x < w := by
  obtain ⟨hlen, hrows⟩ := hS
  unfold tileAt at ht
  cases hrow : g[y]? with
  | none => simp [hrow] at ht
  | some row =>
    have hy : y < g.length := by
      rcases Nat.lt_or_ge y g.length with hlt | hge
      · exact hlt
      · simp [List.getElem?_eq_none hge] at hrow
    have hx : x < row.length := by
      simp only [hrow, Option.bind_some] at ht
      rcases Nat.lt_or_ge x row.length with hlt | hge
      · exact hlt
      · simp [List.getElem?_eq_none hge] at ht
    have hrw : row.length = w := hrows row (List.getElem?_mem hrow)
    omega

theorem tileAt_none_of_oob {w h : Nat} {g : Grid} (hS : Shaped w h g)
    {y x : Nat} (hoob : ¬(y < h ∧ x < w)) : tileAt g y x = none := by
  cases ht : tileAt g y x with
  | none => rfl
  | some t => exact absurd (tileAt_some_bounds hS ht) hoob

/-- `Map::get` at nonnegative coordinates is exactly `tileAt`. -/
theorem Map.get_eq_tileAt {m : Map} {x y : Int} (hx : 0 ≤ x) (hy : 0 ≤ y) :
    m.get x y = tileAt m.tiles y.toNat x.toNat := by
  unfold Map.get tileAt
  rw [if_neg (by omega)]

/-- `Map::is_passable` at `Nat` coordinates is the bare-grid `passableB`. -/
theorem Map.is_passable_natCast (m : Map) (px py : Nat) :
    m.is_passable (px : Int) (py : Int) = passableB m.tiles py px := by
  unfold Map.is_passable passableB
  rw [Map.get_eq_tileAt (by omega) (by omega)]
  simp

/-! ### Claim C2: the counterexample grid for the server search cap -/

/-- A 1-row, 120-column grid whose only passable cell sits at `x = 1`,
Chebyshev distance 59 from the center column 60 — beyond the server cap. -/
def cexRow : List Tile :=
  (List.range 120).map (fun i => if i = 1 then Tile.Floor else Tile.Wall)

/-- The counterexample grid: `width = 120`, `height = 1`. -/
def cexTiles : Grid := [cexRow]

theorem cexTiles_tileAt (x : Nat) (hx : x < 120) :
    tileAt cexTiles 0 x = some (if x = 1 then Tile.Floor else Tile.Wall) := by
  unfold cexTiles cexRow tileAt
  simp [List.getElem?_range hx]

/-- The server search falls through to `(1, 1)` exactly when no candidate
passes the scan predicate. -/
theorem serverFindStart_eq_of_none {tiles : Grid} {w h : Nat}
    (hf : (serverCandidates (w / 2) (h / 2)).find?
      (fun c => decide (c.1 < w) && decide (c.2 < h) && passableB tiles c.2 c.1) = none) :
    MapGenerator.find_start_position tiles w h = (1, 1) := by
  unfold MapGenerator.find_start_position
  rw [hf]

theorem cex_find?_eq_none :
    (serverCandidates (120 / 2) (1 / 2)).find?
      (fun c => decide (c.1 < 120) && decide (c.2 < 1) && passableB cexTiles c.2 c.1) = none := by
  rw [List.find?_eq_none]
  intro c hc
  unfold serverCandidates at hc
  simp only [List.mem_flatMap, List.mem_map, List.mem_range] at hc
  obtain ⟨r, hr, dy, hdy, dx, hdx, rfl⟩ := hc
  rw [mem_deltaList_iff (by omega)] at hdy hdx
  simp only [Bool.and_eq_true, decide_eq_true_eq, Bool.not_eq_true]
  intro hcon
  obtain ⟨⟨hx, hy⟩, hpass⟩ := hcon
  -- the y candidate must be 0, forcing dy = 0
  have hcy : i32Of (1 / 2) = 0 := by decide
  have hcx : i32Of (120 / 2) = 60 := by decide
  rw [hcy, zero_add] at hy hpass
  rw [hcx] at hx hpass
  have hydown : usizeOf dy = 0 := by omega
  rw [hydown] at hpass
  have hxrange : (11 : Int) ≤ 60 + dx ∧ (60 : Int) + dx ≤ 109 := by omega
  have hux : usizeOf (60 + dx) = (60 + dx).toNat :=
    usizeOf_nonneg_small (by omega) (by omega)
  rw [hux] at hpass
  rw [passableB_iff] at hpass
  obtain ⟨t, htile, htp⟩ := hpass
  rw [cexTiles_tileAt _ (by omega)] at htile
  have hne : ¬((60 + dx).toNat = 1) := by omega
  rw [if_neg hne] at htile
  cases htile
  simp [Tile.is_passable] at htp

/-! ### Start-resolution specifications -/

/-- The client expanding-ring search, with no server-provided start, on a
rectangular grid with at least one passable cell and a Wall border: the
resolved start is passable and strictly inside the border.  The search
radius reaches `max(width,height) - 1`, which covers the whole grid. -/
theorem clientFindStart_spec (m : Map)
    (hnone : m.start_position = none)
    (hS : Shaped m.width m.height m.tiles)
    (hw : 1 ≤ m.width) (hh : 1 ≤ m.height)
    (hwB : m.width ≤ 1073741824) (hhB : m.height ≤ 1073741824)
    (hpassEx : ∃ px py, px < m.width ∧ py < m.height ∧ passableB m.tiles py px = true)
    (hborder : BW m.width m.height m.tiles) :
    m.is_passable m.find_start_position.1 m.find_start_position.2 = true ∧
    0 < m.find_start_position.1 ∧ m.find_start_position.1 < (m.width : Int) - 1 ∧
    0 < m.find_start_position.2 ∧ m.find_start_position.2 < (m.height : Int) - 1 := by
  obtain ⟨px, py, hpx, hpy, hpass⟩ := hpassEx
  have hmem : ((px : Int), (py : Int)) ∈ clientCandidates m.width m.height := by
    unfold clientCandidates
    rw [List.mem_flatMap]
    refine ⟨max ((px : Int) - (m.width / 2 : Nat)).natAbs
      ((py : Int) - (m.height / 2 : Nat)).natAbs, ?_, ?_⟩
    · rw [List.mem_range]
      have h1 : m.width / 2 < m.width := Nat.div_lt_self (by omega) (by omega)
      have h2 : m.height / 2 < m.height := Nat.div_lt_self (by omega) (by omega)
      have h3 : m.width ≤ max m.width m.height := Nat.le_max_left _ _
      have h4 : m.height ≤ max m.width m.height := Nat.le_max_right _ _
      omega
    · rw [List.mem_flatMap]
      have hrB : max ((px : Int) - (m.width / 2 : Nat)).natAbs
          ((py : Int) - (m.height / 2 : Nat)).natAbs < 2147483648 := by
        have h1 : m.width / 2 < m.width := Nat.div_lt_self (by omega) (by omega)
        have h2 : m.height / 2 < m.height := Nat.div_lt_self (by omega) (by omega)
        omega
      refine ⟨(py : Int) - (m.height / 2 : Nat), ?_, ?_⟩
      · rw [mem_deltaList_iff hrB]
        omega
      · rw [List.mem_map]
        refine ⟨(px : Int) - (m.width / 2 : Nat), ?_, ?_⟩
        · rw [mem_deltaList_iff hrB]
          omega
        · rw [i32Of_small (by omega), i32Of_small (by omega)]
          rw [Prod.mk.injEq]
          constructor <;> omega
  have hsome : ((clientCandidates m.width m.height).find?
      (fun c => m.is_passable c.1 c.2)).isSome := by
    rw [List.find?_isSome]
    refine ⟨((px : Int), (py : Int)), hmem, ?_⟩
    rw [Map.is_passable_natCast]
    exact hpass
  cases hfind : (clientCandidates m.width m.height).find?
      (fun c => m.is_passable c.1 c.2) with
  | none => rw [hfind] at hsome; cases hsome
  | some c =>
    have hres : m.find_start_position = c := by
      unfold Map.find_start_position
      rw [hnone, hfind]
    have hcpass : m.is_passable c.1 c.2 = true := by
      have h := List.find?_some
        (p := fun q : Int × Int => m.is_passable q.1 q.2) (l := clientCandidates m.width m.height)
        (a := c) hfind
      exact h
    rw [hres]
    refine ⟨hcpass, ?_⟩
    obtain ⟨t, hget, htp⟩ : ∃ t, m.get c.1 c.2 = some t ∧ t.is_passable = true := by
      unfold Map.is_passable at hcpass
      cases hg : m.get c.1 c.2 with
      | none => rw [hg] at hcpass; simp at hcpass
      | some t =>
        rw [hg] at hcpass
        simp at hcpass
        exact ⟨t, rfl, hcpass⟩
    have hnn : ¬(c.1 < 0 ∨ c.2 < 0) := by
      intro hneg
      unfold Map.get at hget
      rw [if_pos hneg] at hget
      cases hget
    have htile : tileAt m.tiles c.2.toNat c.1.toNat = some t := by
      rw [Map.get_eq_tileAt (by omega) (by omega)] at hget
      exact hget
    have hbounds := tileAt_some_bounds hS htile
    have hx0 : c.1.toNat ≠ 0 := by
      intro h0
      have := hborder c.2.toNat hbounds.1 c.1.toNat hbounds.2 (by omega)
      rw [htile] at this
      cases this
      simp [Tile.is_passable] at htp
    have hxw : c.1.toNat ≠ m.width - 1 := by
      intro h0
      have := hborder c.2.toNat hbounds.1 c.1.toNat hbounds.2 (by omega)
      rw [htile] at this
      cases this
      simp [Tile.is_passable] at htp
    have hy0 : c.2.toNat ≠ 0 := by
      intro h0
      have := hborder c.2.toNat hbounds.1 c.1.toNat hbounds.2 (by omega)
      rw [htile] at this
      cases this
      simp [Tile.is_passable] at htp
    have hyh : c.2.toNat ≠ m.height - 1 := by
      intro h0
      have := hborder c.2.toNat hbounds.1 c.1.toNat hbounds.2 (by omega)
      rw [htile] at this
      cases this
      simp [Tile.is_passable] at htp
    omega

/-- The server search on a rectangular grid with a Wall border: whenever a
passable cell exists within Chebyshev distance 49 of the center (the ring
radius is capped at the constant 50), the resolved start is passable and
strictly inside the border. -/
theorem serverFindStart_spec (tiles : Grid) (w h : Nat)
    (_hS : Shaped w h tiles) (hw : 1 ≤ w) (hh : 1 ≤ h)
    (hwB : w ≤ 1073741824) (hhB : h ≤ 1073741824)
    (hpassEx : ∃ px py, px < w ∧ py < h ∧ passableB tiles py px = true ∧
      ((px : Int) - (w / 2 : Nat)).natAbs ≤ 49 ∧ ((py : Int) - (h / 2 : Nat)).natAbs ≤ 49)
    (hborder : BW w h tiles) :
    passableB tiles (MapGenerator.find_start_position tiles w h).2.toNat
      (MapGenerator.find_start_position tiles w h).1.toNat = true ∧
    0 < (MapGenerator.find_start_position tiles w h).1 ∧
    (MapGenerator.find_start_position tiles w h).1 < (w : Int) - 1 ∧
    0 < (MapGenerator.find_start_position tiles w h).2 ∧
    (MapGenerator.find_start_position tiles w h).2 < (h : Int) - 1 := by
  obtain ⟨px, py, hpx, hpy, hpass, hdx49, hdy49⟩ := hpassEx
  have hmem : (px, py) ∈ serverCandidates (w / 2) (h / 2) := by
    unfold serverCandidates
    rw [List.mem_flatMap]
    refine ⟨max ((px : Int) - (w / 2 : Nat)).natAbs ((py : Int) - (h / 2 : Nat)).natAbs, ?_, ?_⟩
    · rw [List.mem_range]; omega
    · rw [List.mem_flatMap]
      refine ⟨(py : Int) - (h / 2 : Nat), ?_, ?_⟩
      · rw [mem_deltaList_iff (by omega)]
        omega
      · rw [List.mem_map]
        refine ⟨(px : Int) - (w / 2 : Nat), ?_, ?_⟩
        · rw [mem_deltaList_iff (by omega)]
          omega
        · rw [i32Of_small (by omega), i32Of_small (by omega)]
          rw [Prod.mk.injEq]
          constructor
          · rw [show ((w / 2 : Nat) : Int) + ((px : Int) - (w / 2 : Nat)) = (px : Int) by omega]
            rw [usizeOf_nonneg_small (by omega) (by omega)]
            omega
          · rw [show ((h / 2 : Nat) : Int) + ((py : Int) - (h / 2 : Nat)) = (py : Int) by omega]
            rw [usizeOf_nonneg_small (by omega) (by omega)]
            omega
  have hsome : ((serverCandidates (w / 2) (h / 2)).find?
      (fun c => decide (c.1 < w) && decide (c.2 < h) && passableB tiles c.2 c.1)).isSome := by
    rw [List.find?_isSome]
    refine ⟨(px, py), hmem, ?_⟩
    simp only [Bool.and_eq_true, decide_eq_true_eq]
    exact ⟨⟨hpx, hpy⟩, hpass⟩
  cases hfind : (serverCandidates (w / 2) (h / 2)).find?
      (fun c => decide (c.1 < w) && decide (c.2 < h) && passableB tiles c.2 c.1) with
  | none => rw [hfind] at hsome; cases hsome
  | some c =>
    have hcp := List.find?_some hfind
    simp only [Bool.and_eq_true, decide_eq_true_eq] at hcp
    obtain ⟨⟨hc1, hc2⟩, hcpass⟩ := hcp
    have hres : MapGenerator.find_start_position tiles w h = (i32Of c.1, i32Of c.2) := by
      unfold MapGenerator.find_start_position
      rw [hfind]
    rw [hres, i32Of_small (by omega), i32Of_small (by omega)]
    simp only [Int.toNat_natCast]
    obtain ⟨t, htile, htp⟩ := passableB_iff.mp hcpass
    have hx0 : c.1 ≠ 0 := by
      intro h0
      have := hborder c.2 hc2 c.1 hc1 (by omega)
      rw [htile] at this
      cases this
      simp [Tile.is_passable] at htp
    have hxw : c.1 ≠ w - 1 := by
      intro h0
      have := hborder c.2 hc2 c.1 hc1 (by omega)
      rw [htile] at this
      cases this
      simp [Tile.is_passable] at htp
    have hy0 : c.2 ≠ 0 := by
      intro h0
      have := hborder c.2 hc2 c.1 hc1 (by omega)
      rw [htile] at this
      cases this
      simp [Tile.is_passable] at htp
    have hyh : c.2 ≠ h - 1 := by
      intro h0
      have := hborder c.2 hc2 c.1 hc1 (by omega)
      rw [htile] at this
      cases this
      simp [Tile.is_passable] at htp
    exact ⟨hcpass, by omega, by omega, by omega, by omega⟩

/-! ### The nebula passes: per-cell effect -/

/-- Per-cell effect of a nebula pass: every cell is either untouched, or
was `Floor` and became `Nebula`. -/
def NebStep (g g' : Grid) : Prop :=
  ∀ y x, tileAt g' y x = tileAt g y x ∨
    (tileAt g y x = some Tile.Floor ∧ tileAt g' y x = some Tile.Nebula)

theorem nebStep_refl (g : Grid) : NebStep g g := fun _ _ => Or.inl rfl

theorem nebStep_trans {g g' g'' : Grid} (h1 : NebStep g g') (h2 : NebStep g' g'') :
    NebStep g g'' := by
  intro y x
  rcases h2 y x with he | ⟨hf, hn⟩
  · rw [he]; exact h1 y x
  · rcases h1 y x with he' | ⟨hf', hn'⟩
    · rw [he'] at hf; exact Or.inr ⟨hf, hn⟩
    · rw [hn'] at hf; simp at hf

theorem nebStep_condSet (g : Grid) (ny nx : Nat) :
    NebStep g (if tileAt g ny nx = some Tile.Floor then setTile g ny nx Tile.Nebula else g) := by
  intro y x
  split
  · next hfloor =>
    by_cases hxy : ny = y ∧ nx = x
    · obtain ⟨rfl, rfl⟩ := hxy
      exact Or.inr ⟨hfloor, tileAt_setTile_self _ _ _ _ (by simp [hfloor])⟩
    · left
      rw [tileAt_setTile_ne _ _ _ _ _ _ (by tauto)]
  · left; rfl

theorem clientNebulaIter_nebStep {w h rng : Nat} {g : Grid} {p : Nat × Grid}
    (hp : clientNebulaIter w h rng g = some p) : NebStep g p.2 := by
  simp only [clientNebulaIter, Option.bind_eq_some, Option.some.injEq] at hp
  obtain ⟨mx, hmx, my, hmy, hp⟩ := hp
  subst hp
  refine foldlInv (fun gg => NebStep g gg) _ _ _ ?_ (nebStep_refl g)
  intro a ny _ ha
  refine foldlInv (fun gg => NebStep g gg) _ _ _ ?_ ha
  intro a2 nx _ ha2
  exact nebStep_trans ha2 (nebStep_condSet a2 ny nx)

theorem serverNebulaIter_nebStep {w h rng : Nat} {g : Grid} {p : Nat × Grid}
    (hp : serverNebulaIter w h rng g = some p) : NebStep g p.2 := by
  simp only [serverNebulaIter, Option.bind_eq_some, Option.some.injEq] at hp
  obtain ⟨mx, hmx, my, hmy, hp⟩ := hp
  subst hp
  refine foldlInv (fun gg => NebStep g gg) _ _ _ ?_ (nebStep_refl g)
  intro a dy _ ha
  refine foldlInv (fun gg => NebStep g gg) _ _ _ ?_ ha
  intro a2 dx _ ha2
  dsimp only
  refine nebStep_trans ha2 ?_
  split
  · split
    · exact nebStep_condSet a2 _ _
    · exact nebStep_refl a2
  · exact nebStep_refl a2

theorem iterPass_nebStep (f : Nat → Grid → Option (Nat × Grid))
    (hstep : ∀ rng g p, f rng g = some p → NebStep g p.2) :
    ∀ n rng g p, iterPass f n rng g = some p → NebStep g p.2 := by
  intro n
  induction n with
  | zero =>
    intro rng g p hit
    unfold iterPass at hit
    cases hit
    exact nebStep_refl g
  | succ k ih =>
    intro rng g p hit
    unfold iterPass at hit
    cases hf : f rng g with
    | none => rw [hf] at hit; cases hit
    | some q =>
      rw [hf] at hit
      exact nebStep_trans (hstep rng g q hf) (ih q.1 q.2 p hit)

/-! ### Movement lemmas -/

/-- `try_move` either succeeds and lands on a passable cell, or fails and
leaves the position unchanged. -/
theorem tryMove_cases (m : Map) (p : Player) (dx dy : Int) :
    ((p.try_move dx dy m).2 = true ∧
      m.is_passable (p.try_move dx dy m).1.x (p.try_move dx dy m).1.y = true) ∨
    ((p.try_move dx dy m).2 = false ∧ (p.try_move dx dy m).1.x = p.x ∧
      (p.try_move dx dy m).1.y = p.y) := by
  unfold Player.try_move
  split
  · right; exact ⟨rfl, rfl, rfl⟩
  · cases hdir : Direction.from_delta dx dy <;> simp only [hdir] <;>
    · split
      · next hpass => left; exact ⟨rfl, hpass⟩
      · split
        · split
          · next hpass => left; exact ⟨rfl, hpass⟩
          · split
            · next hpass => left; exact ⟨rfl, hpass⟩
            · right; exact ⟨rfl, rfl, rfl⟩
        · right; exact ⟨rfl, rfl, rfl⟩

/-- A blocked non-diagonal move: full result equality — the position is
unchanged, the move reports failure, and only the facing is updated (to
the attempted direction when the delta maps to one). -/
theorem tryMove_blocked_cardinal (m : Map) (p : Player) (dx dy : Int)
    (h0 : ¬(dx = 0 ∧ dy = 0)) (hcard : dx = 0 ∨ dy = 0)
    (hblock : m.is_passable (p.x + dx) (p.y + dy) = false) :
    p.try_move dx dy m =
      ({ p with direction := (Direction.from_delta dx dy).getD p.direction }, false) := by
  unfold Player.try_move
  rw [if_neg h0]
  cases hdir : Direction.from_delta dx dy <;> simp only [hdir, Option.getD] <;>
  · rw [if_neg (by simp [hblock]), if_neg (by tauto)]

/-- The diagonal wall-slide: blocked diagonal, passable horizontal target.
The horizontal sub-move is taken (regardless of the vertical one). -/
theorem tryMove_slide_horizontal (m : Map) (p : Player) (dx dy : Int)
    (hdx : dx ≠ 0) (hdy : dy ≠ 0)
    (hdiag : m.is_passable (p.x + dx) (p.y + dy) = false)
    (hhor : m.is_passable (p.x + dx) p.y = true) :
    (p.try_move dx dy m).1.x = p.x + dx ∧ (p.try_move dx dy m).1.y = p.y ∧
    (p.try_move dx dy m).2 = true := by
  unfold Player.try_move
  rw [if_neg (by tauto)]
  cases hdir : Direction.from_delta dx dy <;> simp only [hdir] <;>
  · rw [if_neg (by simp [hdiag]), if_pos ⟨hdx, hdy⟩, if_pos hhor]
    exact ⟨rfl, rfl, rfl⟩

/-! ### Input-state lemmas -/

theorem inputStep_preserves_release_support (s : InputState) (ev : InEvent)
    (h : s.has_release_support = true) : (s.step ev).has_release_support = true := by
  cases ev with
  | key k e now =>
    show (s.update_key k e now).has_release_support = true
    unfold InputState.update_key
    cases k <;> cases e <;> simp [h]
  | timeout now =>
    show (s.timeout_stale_keys now).has_release_support = true
    unfold InputState.timeout_stale_keys
    rw [if_pos h]
    exact h

theorem run_preserves_release_support (s : InputState) (evs : List InEvent)
    (h : s.has_release_support = true) : (s.run evs).has_release_support = true := by
  unfold InputState.run
  exact foldlInv (fun st => st.has_release_support = true) _ _ _
    (fun st ev _ hst => inputStep_preserves_release_support st ev hst) h

theorem timeout_noop_of_release_support (s : InputState)
    (h : s.has_release_support = true) (now : Nat) : s.timeout_stale_keys now = s := by
  unfold InputState.timeout_stale_keys
  rw [if_pos h]

/-! ### Claim theorems -/

/-- Claim C1: for every generation context (seed, width, height), two
independent runs of the world generator produce identical tile grids and
identical start coordinates; in particular the server MapGenerator
constructed twice from the same seed and asked to generate the same width
and height yields equal tiles, start_x and start_y, and likewise two runs
of the client local generator coincide.  Both generators are pure
functions of the context: no other input exists. -/
theorem claim_C1 :
    (∀ (seed w h : Nat) (g1 g2 : MapGenerator),
      g1 = MapGenerator.new seed → g2 = MapGenerator.new seed →
      (g1.generate w h).map (fun md => (md.tiles, md.start_x, md.start_y)) =
        (g2.generate w h).map (fun md => (md.tiles, md.start_x, md.start_y)) ∧
      g1.generate w h = g2.generate w h) ∧
    (∀ (w h : Nat) (r1 r2 : Option Map),
      r1 = Map.generate_local w h → r2 = Map.generate_local w h →
      (r1.map Map.tiles = r2.map Map.tiles ∧ r1 = r2)) := by
  constructor
  · rintro seed w h g1 g2 rfl rfl
    exact ⟨rfl, rfl⟩
  · rintro w h r1 r2 rfl rfl
    exact ⟨rfl, rfl⟩

/-- Witness for claim C1 at the concrete context (seed 12345, 8 × 6). -/
theorem claim_C1_witness :
    (((MapGenerator.new 12345).generate 8 6).map (fun md => (md.tiles, md.start_x, md.start_y)) =
      ((MapGenerator.new 12345).generate 8 6).map (fun md => (md.tiles, md.start_x, md.start_y)) ∧
      (MapGenerator.new 12345).generate 8 6 = (MapGenerator.new 12345).generate 8 6) ∧
    ((Map.generate_local 8 6).map Map.tiles = (Map.generate_local 8 6).map Map.tiles ∧
      Map.generate_local 8 6 = Map.generate_local 8 6) :=
  ⟨claim_C1.1 12345 8 6 _ _ rfl rfl, claim_C1.2 8 6 _ _ rfl rfl⟩

/-- Claim C10: the client local fallback generator takes only width and
height as inputs and initialises its internal PRNG state to the fixed
constant 12345, so every invocation at the same (width, height) returns
the identical result — the seed of the Generation Context is not an input
to the local fallback. -/
theorem claim_C10 :
    (∀ w h : Nat, Map.generate_local w h = generateLocalCore 12345 w h) ∧
    (∀ (w h : Nat) (r1 r2 : Option Map),
      r1 = Map.generate_local w h → r2 = Map.generate_local w h → r1 = r2) := by
  constructor
  · intro w h
    rfl
  · rintro w h r1 r2 rfl rfl
    rfl

/-- Witness for claim C10 at the concrete size 8 × 6. -/
theorem claim_C10_witness :
    Map.generate_local 8 6 = generateLocalCore 12345 8 6 ∧
    Map.generate_local 8 6 = Map.generate_local 8 6 :=
  ⟨claim_C10.1 8 6, claim_C10.2 8 6 _ _ rfl rfl⟩

/-- Claim C3: for every generated grid (any seed, width ≥ 1, height ≥ 1),
every cell with x ∈ {0, width-1} or y ∈ {0, height-1} is Wall, for both
the client local generator (which runs an explicit final border-seal pass)
and the server generator (whose passes all stay strictly inside the
border).  Generation is modelled as `Option`: a run that panics in Rust
(degenerate sizes make a loop bound underflow or a placement modulus zero)
returns `none` and produces no grid. -/
theorem claim_C3 :
    (∀ (w h : Nat) (m : Map), 1 ≤ w → 1 ≤ h → Map.generate_local w h = some m →
      ∀ y, y < h → ∀ x, x < w → (y = 0 ∨ y = h - 1 ∨ x = 0 ∨ x = w - 1) →
        tileAt m.tiles y x = some Tile.Wall) ∧
    (∀ (seed w h : Nat) (md : MapData), 1 ≤ w → 1 ≤ h →
      (MapGenerator.new seed).generate w h = some md →
      ∀ y, y < h → ∀ x, x < w → (y = 0 ∨ y = h - 1 ∨ x = 0 ∨ x = w - 1) →
        tileAt md.tiles y x = some Tile.Wall) := by
  constructor
  · intro w h m _ _ hp y hy x hx hb
    exact generateLocal_bw hp y hy x hx hb
  · intro seed w h md _ _ hp y hy x hx hb
    exact serverGenerate_bw hp y hy x hx hb

/-- Witness for claim C3: the client generator at 6 × 5 and the server
generator at seed 3, 7 × 6, checked at sample border cells. -/
theorem claim_C3_witness :
    ((Map.generate_local 6 5).elim False (fun m =>
      tileAt m.tiles 0 3 = some Tile.Wall ∧ tileAt m.tiles 4 5 = some Tile.Wall)) ∧
    (((MapGenerator.new 3).generate 7 6).elim False (fun md =>
      tileAt md.tiles 0 0 = some Tile.Wall ∧ tileAt md.tiles 5 6 = some Tile.Wall)) := by
  constructor
  · cases hgen : Map.generate_local 6 5 with
    | none =>
      have hs : (Map.generate_local 6 5).isSome = true := by decide
      rw [hgen] at hs
      cases hs
    | some m =>
      exact ⟨claim_C3.1 6 5 m (by omega) (by omega) hgen 0 (by omega) 3 (by omega) (Or.inl rfl),
        claim_C3.1 6 5 m (by omega) (by omega) hgen 4 (by omega) 5 (by omega)
          (Or.inr (Or.inr (Or.inr rfl)))⟩
  · cases hgen : (MapGenerator.new 3).generate 7 6 with
    | none =>
      have hs : ((MapGenerator.new 3).generate 7 6).isSome = true := by decide
      rw [hgen] at hs
      cases hs
    | some md =>
      exact ⟨claim_C3.2 3 7 6 md (by omega) (by omega) hgen 0 (by omega) 0 (by omega) (Or.inl rfl),
        claim_C3.2 3 7 6 md (by omega) (by omega) hgen 5 (by omega) 6 (by omega)
          (Or.inr (Or.inr (Or.inr rfl)))⟩

/-! ### Concrete fixtures for witnesses -/

/-- An all-Floor 43 × 43 grid (client nebula-pass witness input). -/
def floorGrid43 : Grid := List.replicate 43 (List.replicate 43 Tile.Floor)

/-- An all-Floor 40 × 40 grid (server nebula-pass witness input). -/
def floorGrid40 : Grid := List.replicate 40 (List.replicate 40 Tile.Floor)

/-- A 3 × 3 map: Wall border, single Floor center, no server start. -/
def map3 : Map :=
  { tiles := [[Tile.Wall, Tile.Wall, Tile.Wall],
              [Tile.Wall, Tile.Floor, Tile.Wall],
              [Tile.Wall, Tile.Wall, Tile.Wall]]
    width := 3, height := 3, start_position := none }

/-- A 4 × 3 map: Wall border around a two-cell Floor corridor. -/
def map4 : Map :=
  { tiles := [[Tile.Wall, Tile.Wall, Tile.Wall, Tile.Wall],
              [Tile.Wall, Tile.Floor, Tile.Floor, Tile.Wall],
              [Tile.Wall, Tile.Wall, Tile.Wall, Tile.Wall]]
    width := 4, height := 3, start_position := none }

/-- Claim C4: the nebula pass (any number of zones) only converts cells
that are currently Floor into Nebula and never converts Wall; since Floor
and Nebula are both passable, every cell passable before the pass is
passable after it — in both the client and the server generator. -/
theorem claim_C4 :
    (∀ (w h n rng : Nat) (g : Grid) (p : Nat × Grid),
      iterPass (clientNebulaIter w h) n rng g = some p →
      (∀ y x, tileAt p.2 y x = tileAt g y x ∨
        (tileAt g y x = some Tile.Floor ∧ tileAt p.2 y x = some Tile.Nebula)) ∧
      (∀ y x, passableB g y x = true → passableB p.2 y x = true)) ∧
    (∀ (w h n rng : Nat) (g : Grid) (p : Nat × Grid),
      iterPass (serverNebulaIter w h) n rng g = some p →
      (∀ y x, tileAt p.2 y x = tileAt g y x ∨
        (tileAt g y x = some Tile.Floor ∧ tileAt p.2 y x = some Tile.Nebula)) ∧
      (∀ y x, passableB g y x = true → passableB p.2 y x = true)) := by
  constructor
  · intro w h n rng g p hp
    have hstep := iterPass_nebStep _ (fun rng g p hq => clientNebulaIter_nebStep hq) n rng g p hp
    refine ⟨hstep, ?_⟩
    intro y x hpass
    rcases hstep y x with he | ⟨_, hn⟩
    · unfold passableB at hpass ⊢
      rw [he]
      exact hpass
    · unfold passableB
      rw [hn]
      rfl
  · intro w h n rng g p hp
    have hstep := iterPass_nebStep _ (fun rng g p hq => serverNebulaIter_nebStep hq) n rng g p hp
    refine ⟨hstep, ?_⟩
    intro y x hpass
    rcases hstep y x with he | ⟨_, hn⟩
    · unfold passableB at hpass ⊢
      rw [he]
      exact hpass
    · unfold passableB
      rw [hn]
      rfl

/-- Witness for claim C4: one client zone on an all-Floor 43 × 43 grid and
one server zone on an all-Floor 40 × 40 grid; the sampled cells stay
passable (they are in fact converted to Nebula). -/
theorem claim_C4_witness :
    ((iterPass (clientNebulaIter 43 43) 1 0 floorGrid43).elim False (fun p =>
      passableB p.2 17 6 = true)) ∧
    ((iterPass (serverNebulaIter 40 40) 1 0 floorGrid40).elim False (fun p =>
      passableB p.2 17 15 = true)) := by
  constructor
  · cases hgen : iterPass (clientNebulaIter 43 43) 1 0 floorGrid43 with
    | none =>
      have hs : (iterPass (clientNebulaIter 43 43) 1 0 floorGrid43).isSome = true := by decide
      rw [hgen] at hs
      cases hs
    | some p =>
      exact (claim_C4.1 43 43 1 0 floorGrid43 p hgen).2 17 6 (by decide)
  · cases hgen : iterPass (serverNebulaIter 40 40) 1 0 floorGrid40 with
    | none =>
      have hs : (iterPass (serverNebulaIter 40 40) 1 0 floorGrid40).isSome = true := by decide
      rw [hgen] at hs
      cases hs
    | some p =>
      exact (claim_C4.2 40 40 1 0 floorGrid40 p hgen).2 17 15 (by decide)

/-- Claim C5: for every map and diagonal delta whose diagonal target is
impassable but whose horizontal-only target is passable, try_move moves
the player horizontally only and returns true (the horizontal sub-move is
attempted before the vertical one — the vertical target is never
consulted when the horizontal one is passable). -/
theorem claim_C5 (m : Map) (p : Player) (dx dy : Int)
    (hdx : dx ≠ 0) (hdy : dy ≠ 0)
    (hdiag : m.is_passable (p.x + dx) (p.y + dy) = false)
    (hhor : m.is_passable (p.x + dx) p.y = true) :
    (p.try_move dx dy m).1.x = p.x + dx ∧ (p.try_move dx dy m).1.y = p.y ∧
    (p.try_move dx dy m).2 = true :=
  tryMove_slide_horizontal m p dx dy hdx hdy hdiag hhor

/-- Witness for claim C5: the corridor map, player at (1,1), delta (1,1):
the diagonal target (2,2) is Wall, the horizontal target (2,1) is Floor. -/
theorem claim_C5_witness :
    ((Player.mk 1 1 Direction.Up).try_move 1 1 map4).1.x = 1 + 1 ∧
    ((Player.mk 1 1 Direction.Up).try_move 1 1 map4).1.y = 1 ∧
    ((Player.mk 1 1 Direction.Up).try_move 1 1 map4).2 = true :=
  claim_C5 map4 (Player.mk 1 1 Direction.Up) 1 1 (by decide) (by decide)
    (by decide) (by decide)

/-- Claim C6: on a blocked non-diagonal move, try_move returns false and
changes only the facing (to the attempted direction when the delta maps to
one); in particular a player at (1,1) on a rectangular grid with a Wall
border cannot move left — try_move(-1,0) returns false, the position is
unchanged and the facing becomes Left. -/
theorem claim_C6 :
    (∀ (m : Map) (p : Player) (dx dy : Int), ¬(dx = 0 ∧ dy = 0) → (dx = 0 ∨ dy = 0) →
      m.is_passable (p.x + dx) (p.y + dy) = false →
      p.try_move dx dy m =
        ({ p with direction := (Direction.from_delta dx dy).getD p.direction }, false)) ∧
    (∀ (m : Map) (p : Player), Shaped m.width m.height m.tiles →
      BW m.width m.height m.tiles → p.x = 1 → p.y = 1 →
      (p.try_move (-1) 0 m).2 = false ∧ (p.try_move (-1) 0 m).1.x = 1 ∧
      (p.try_move (-1) 0 m).1.y = 1 ∧
      (p.try_move (-1) 0 m).1.direction = Direction.Left) := by
  constructor
  · intro m p dx dy h0 hcard hblock
    exact tryMove_blocked_cardinal m p dx dy h0 hcard hblock
  · intro m p hS hBW hpx hpy
    have hblock : m.is_passable (p.x + -1) (p.y + 0) = false := by
      rw [hpx, hpy]
      have h1 : (1 : Int) + -1 = 0 := by decide
      have h2 : (1 : Int) + 0 = 1 := by decide
      rw [h1, h2]
      unfold Map.is_passable
      rw [Map.get_eq_tileAt (by omega) (by omega)]
      cases ht : tileAt m.tiles (1 : Int).toNat (0 : Int).toNat with
      | none => rfl
      | some t =>
        have hb := tileAt_some_bounds hS ht
        have hw := hBW (1 : Int).toNat hb.1 (0 : Int).toNat hb.2 (Or.inr (Or.inr (Or.inl rfl)))
        rw [ht] at hw
        cases hw
        rfl
    have heq := tryMove_blocked_cardinal m p (-1) 0 (by simp) (Or.inr rfl) hblock
    rw [heq, hpx, hpy]
    exact ⟨rfl, rfl, rfl, rfl⟩

/-- Witness for claim C6: the bordered 3 × 3 map with the player at (1,1)
facing Up. -/
theorem claim_C6_witness :
    ((Player.mk 1 1 Direction.Up).try_move (-1) 0 map3).2 = false ∧
    ((Player.mk 1 1 Direction.Up).try_move (-1) 0 map3).1.x = 1 ∧
    ((Player.mk 1 1 Direction.Up).try_move (-1) 0 map3).1.y = 1 ∧
    ((Player.mk 1 1 Direction.Up).try_move (-1) 0 map3).1.direction = Direction.Left :=
  claim_C6.2 map3 (Player.mk 1 1 Direction.Up)
    (by unfold Shaped; decide) (by unfold BW; decide) rfl rfl

/-- Claim C9: whenever try_move returns true the resulting position is
passable, and whenever it returns false the position is unchanged; hence a
player starting on a passable cell occupies a passable cell after any
sequence of try_move calls. -/
theorem claim_C9 :
    (∀ (m : Map) (p : Player) (dx dy : Int), (p.try_move dx dy m).2 = true →
      m.is_passable (p.try_move dx dy m).1.x (p.try_move dx dy m).1.y = true) ∧
    (∀ (m : Map) (p : Player) (dx dy : Int), (p.try_move dx dy m).2 = false →
      (p.try_move dx dy m).1.x = p.x ∧ (p.try_move dx dy m).1.y = p.y) ∧
    (∀ (m : Map) (p : Player) (moves : List (Int × Int)),
      m.is_passable p.x p.y = true →
      m.is_passable (p.runMoves m moves).x (p.runMoves m moves).y = true) := by
  have invStep : ∀ (m : Map) (p : Player) (dx dy : Int), m.is_passable p.x p.y = true →
      m.is_passable (p.try_move dx dy m).1.x (p.try_move dx dy m).1.y = true := by
    intro m p dx dy hp
    rcases tryMove_cases m p dx dy with ⟨_, hpass⟩ | ⟨_, hx, hy⟩
    · exact hpass
    · rw [hx, hy]
      exact hp
  refine ⟨?_, ?_, ?_⟩
  · intro m p dx dy htrue
    rcases tryMove_cases m p dx dy with ⟨_, hpass⟩ | ⟨hfalse, _, _⟩
    · exact hpass
    · rw [htrue] at hfalse
      cases hfalse
  · intro m p dx dy hfalse
    rcases tryMove_cases m p dx dy with ⟨htrue, _⟩ | ⟨_, hx, hy⟩
    · rw [hfalse] at htrue
      cases htrue
    · exact ⟨hx, hy⟩
  · intro m p moves
    induction moves generalizing p with
    | nil => intro hp; exact hp
    | cons d rest ih =>
      intro hp
      exact ih ((p.try_move d.1 d.2 m).1) (invStep m p d.1 d.2 hp)

/-- Witness for claim C9 on the corridor map: a successful step right, a
blocked step left, and a two-step sequence from the passable start. -/
theorem claim_C9_witness :
    (map4.is_passable ((Player.mk 1 1 Direction.Up).try_move 1 0 map4).1.x
      ((Player.mk 1 1 Direction.Up).try_move 1 0 map4).1.y = true) ∧
    (((Player.mk 1 1 Direction.Up).try_move (-1) 0 map4).1.x = 1 ∧
      ((Player.mk 1 1 Direction.Up).try_move (-1) 0 map4).1.y = 1) ∧
    (map4.is_passable
      ((Player.mk 1 1 Direction.Up).runMoves map4 [(1, 0), (0, 1)]).x
      ((Player.mk 1 1 Direction.Up).runMoves map4 [(1, 0), (0, 1)]).y = true) :=
  ⟨claim_C9.1 map4 (Player.mk 1 1 Direction.Up) 1 0 (by decide),
   claim_C9.2.1 map4 (Player.mk 1 1 Direction.Up) (-1) 0 (by decide),
   claim_C9.2.2 map4 (Player.mk 1 1 Direction.Up) [(1, 0), (0, 1)] (by decide)⟩

/-- Claim C8: Map::get is total; on a rectangular grid it returns None
exactly when (x, y) lies outside the bounds, and Some of the stored tile
otherwise — no access indexes out of bounds. -/
theorem claim_C8 (m : Map) (hS : Shaped m.width m.height m.tiles) (x y : Int) :
    (m.get x y = none ↔
      ¬(0 ≤ x ∧ x < (m.width : Int) ∧ 0 ≤ y ∧ y < (m.height : Int))) ∧
    ((0 ≤ x ∧ x < (m.width : Int) ∧ 0 ≤ y ∧ y < (m.height : Int)) →
      m.get x y = tileAt m.tiles y.toNat x.toNat ∧ (m.get x y).isSome = true) := by
  by_cases hneg : x < 0 ∨ y < 0
  · constructor
    · constructor
      · intro _ hcon
        omega
      · intro _
        unfold Map.get
        rw [if_pos hneg]
    · intro hin
      omega
  · have hx0 : 0 ≤ x := by omega
    have hy0 : 0 ≤ y := by omega
    rw [Map.get_eq_tileAt hx0 hy0]
    constructor
    · constructor
      · intro hnone hcon
        have hsome := tileAt_isSome_of_shaped hS
          (y := y.toNat) (x := x.toNat) (by omega) (by omega)
        rw [hnone] at hsome
        cases hsome
      · intro hout
        exact tileAt_none_of_oob hS (by omega)
    · intro hin
      refine ⟨rfl, ?_⟩
      simpa using tileAt_isSome_of_shaped hS
        (y := y.toNat) (x := x.toNat) (by omega) (by omega)

/-- Witness for claim C8 on the 3 × 3 map: out of bounds at (5, 1), in
bounds at (1, 1). -/
theorem claim_C8_witness :
    map3.get 5 1 = none ∧
    (map3.get 1 1 = tileAt map3.tiles (1 : Int).toNat (1 : Int).toNat ∧
      (map3.get 1 1).isSome = true) :=
  ⟨(claim_C8 map3 (by unfold Shaped; decide) 5 1).1.mpr (by decide),
   (claim_C8 map3 (by unfold Shaped; decide) 1 1).2 (by decide)⟩

/-- Claim C7: with no release support, a key held by a press with no
matching release is force-cleared by the timeout check once the window
elapses without refresh; and once a release event has been observed (the
flag is set), the timeout fallback never changes the state again, in any
state reachable through update_key and timeout_stale_keys; a release event
on an arrow key sets the flag. -/
theorem claim_C7 :
    (∀ (s : InputState) (k : Key) (now : Nat), k ≠ Key.other →
      s.has_release_support = false → (s.keyOf k).held = true →
      s.key_timeout < now - (s.keyOf k).last_seen →
      ((s.timeout_stale_keys now).keyOf k).held = false) ∧
    (∀ (s : InputState) (evs : List InEvent) (now : Nat), s.has_release_support = true →
      (s.run evs).timeout_stale_keys now = s.run evs) ∧
    (∀ (s : InputState) (k : Key) (now : Nat), k ≠ Key.other →
      (s.update_key k InputType.release now).has_release_support = true) := by
  refine ⟨?_, ?_, ?_⟩
  · intro s k now hk hrs hheld htime
    unfold InputState.timeout_stale_keys
    rw [if_neg (by simp [hrs])]
    cases k with
    | other => exact absurd rfl hk
    | up =>
      show (s.up.timeoutOne s.key_timeout now).held = false
      unfold KeyState.timeoutOne
      rw [if_pos ⟨hheld, htime⟩]
    | down =>
      show (s.down.timeoutOne s.key_timeout now).held = false
      unfold KeyState.timeoutOne
      rw [if_pos ⟨hheld, htime⟩]
    | left =>
      show (s.left.timeoutOne s.key_timeout now).held = false
      unfold KeyState.timeoutOne
      rw [if_pos ⟨hheld, htime⟩]
    | right =>
      show (s.right.timeoutOne s.key_timeout now).held = false
      unfold KeyState.timeoutOne
      rw [if_pos ⟨hheld, htime⟩]
  · intro s evs now hrs
    exact timeout_noop_of_release_support _ (run_preserves_release_support s evs hrs) now
  · intro s k now hk
    cases k with
    | other => exact absurd rfl hk
    | up => rfl
    | down => rfl
    | left => rfl
    | right => rfl

/-- Witness for claim C7: an up-press at time 0 with a 300ms timeout times
out at time 301; once the flag is set, a whole event sequence later the
timeout check is the identity; a release on right sets the flag. -/
theorem claim_C7_witness :
    ((InputState.timeout_stale_keys
      ⟨⟨true, 0⟩, ⟨false, 0⟩, ⟨false, 0⟩, ⟨false, 0⟩, false, 300⟩ 301).keyOf Key.up).held
        = false ∧
    ((InputState.run ⟨⟨true, 0⟩, ⟨false, 0⟩, ⟨false, 0⟩, ⟨false, 0⟩, true, 300⟩
        [InEvent.key Key.up InputType.press 5, InEvent.timeout 400,
         InEvent.key Key.left InputType.repeat 450]).timeout_stale_keys 1000 =
      InputState.run ⟨⟨true, 0⟩, ⟨false, 0⟩, ⟨false, 0⟩, ⟨false, 0⟩, true, 300⟩
        [InEvent.key Key.up InputType.press 5, InEvent.timeout 400,
         InEvent.key Key.left InputType.repeat 450]) ∧
    ((InputState.update_key
      ⟨⟨true, 0⟩, ⟨false, 0⟩, ⟨false, 0⟩, ⟨false, 0⟩, false, 300⟩
        Key.right InputType.release 7).has_release_support = true) :=
  ⟨claim_C7.1 _ Key.up 301 (by decide) rfl rfl (by decide),
   claim_C7.2.1 _ _ 1000 rfl,
   claim_C7.2.2 _ Key.right 7 (by decide)⟩

/-- Claim C2 counterexample: the server start-resolution search does not
run its ring radius up to max(width, height) — the radius is capped at the
fixed constant 50.  On the 120 × 1 grid whose only passable cell is at
(1, 0), at Chebyshev distance 59 from the center, the server routine
returns the fallback (1, 1) even though a passable cell exists, and (1, 1)
is not passable (it is not even in bounds);  under the claimed radius
bound max(120, 1) the search would have found the passable cell. -/
theorem claim_C2_counterexample :
    MapGenerator.find_start_position cexTiles 120 1 = (1, 1) ∧
    passableB cexTiles 0 1 = true ∧
    passableB cexTiles 1 1 = false := by
  refine ⟨serverFindStart_eq_of_none cex_find?_eq_none, ?_, ?_⟩
  · unfold passableB
    rw [cexTiles_tileAt 1 (by omega)]
    rfl
  · rfl

/-- Claim C2 (amended): the client start resolution (with no
server-provided start) performs the expanding-ring search with radius up
to max(width, height), so on every rectangular Wall-bordered grid with at
least one passable cell the resolved start is passable and strictly
inside the border; the server search caps the radius at the constant 50,
so the same guarantee holds for the server whenever some passable cell
lies within Chebyshev distance 49 of the grid center.  (Width and height
are bounded by 2^30 so that the `as i32` casts in the scanned coordinates
are the identity.) -/
theorem claim_C2_amended :
    (∀ m : Map, m.start_position = none → Shaped m.width m.height m.tiles →
      1 ≤ m.width → 1 ≤ m.height → m.width ≤ 1073741824 → m.height ≤ 1073741824 →
      (∃ px py, px < m.width ∧ py < m.height ∧ passableB m.tiles py px = true) →
      BW m.width m.height m.tiles →
      m.is_passable m.find_start_position.1 m.find_start_position.2 = true ∧
      0 < m.find_start_position.1 ∧ m.find_start_position.1 < (m.width : Int) - 1 ∧
      0 < m.find_start_position.2 ∧ m.find_start_position.2 < (m.height : Int) - 1) ∧
    (∀ (tiles : Grid) (w h : Nat), Shaped w h tiles → 1 ≤ w → 1 ≤ h →
      w ≤ 1073741824 → h ≤ 1073741824 →
      (∃ px py, px < w ∧ py < h ∧ passableB tiles py px = true ∧
        ((px : Int) - (w / 2 : Nat)).natAbs ≤ 49 ∧ ((py : Int) - (h / 2 : Nat)).natAbs ≤ 49) →
      BW w h tiles →
      passableB tiles (MapGenerator.find_start_position tiles w h).2.toNat
        (MapGenerator.find_start_position tiles w h).1.toNat = true ∧
      0 < (MapGenerator.find_start_position tiles w h).1 ∧
      (MapGenerator.find_start_position tiles w h).1 < (w : Int) - 1 ∧
      0 < (MapGenerator.find_start_position tiles w h).2 ∧
      (MapGenerator.find_start_position tiles w h).2 < (h : Int) - 1) :=
  ⟨fun m h1 h2 h3 h4 h5 h6 h7 h8 => clientFindStart_spec m h1 h2 h3 h4 h5 h6 h7 h8,
   fun tiles w h h1 h2 h3 h4 h5 h6 h7 => serverFindStart_spec tiles w h h1 h2 h3 h4 h5 h6 h7⟩

/-- Witness for the amended claim C2 on the bordered 3 × 3 map whose only
passable cell is the center. -/
theorem claim_C2_witness :
    (map3.is_passable map3.find_start_position.1 map3.find_start_position.2 = true ∧
      0 < map3.find_start_position.1 ∧
      map3.find_start_position.1 < (map3.width : Int) - 1 ∧
      0 < map3.find_start_position.2 ∧
      map3.find_start_position.2 < (map3.height : Int) - 1) ∧
    (passableB map3.tiles (MapGenerator.find_start_position map3.tiles 3 3).2.toNat
        (MapGenerator.find_start_position map3.tiles 3 3).1.toNat = true ∧
      0 < (MapGenerator.find_start_position map3.tiles 3 3).1 ∧
      (MapGenerator.find_start_position map3.tiles 3 3).1 < (3 : Int) - 1 ∧
      0 < (MapGenerator.find_start_position map3.tiles 3 3).2 ∧
      (MapGenerator.find_start_position map3.tiles 3 3).2 < (3 : Int) - 1) := by
  constructor
  · exact claim_C2_amended.1 map3 rfl (by unfold Shaped; decide) (by decide) (by decide)
      (by decide) (by decide) ⟨1, 1, by decide, by decide, by decide⟩ (by unfold BW; decide)
  · have h := claim_C2_amended.2 map3.tiles 3 3 (by unfold Shaped; decide) (by decide)
      (by decide) (by decide) (by decide)
      ⟨1, 1, by decide, by decide, by decide, by decide, by decide⟩ (by unfold BW; decide)
    exact h

end ExoSpace
